import Mathlib

/-!
# Sound analysis of the anomaly sound detector

A shallow embedding of `arduino_code/sound_detector/sound_analysis.h`, together with the
constants of `arduino_code/sound_detector/config.h` it uses, and the properties of its six
functions.

Conventions of the embedding:

* `int` is the 32-bit two's complement integer of the ESP32.  Values are carried as `Int`
  and every arithmetic result that can leave the range is wrapped with `wrapInt`.
* A sample buffer `int* samples` is a `List Int`; reading outside of it is the fault
  `Fault.outOfBounds`.  The `count` argument stays a separate argument, as in the source; the
  properties are stated for `count = samples.length`.
* `float` is IEEE 754 binary32 and `double` is binary64 (the ESP32 ABI).  A finite
  floating-point value is carried as the rational number it denotes, and every operation
  rounds its exact result to nearest, ties to even (`f32`, `f64`); a product and the sum it
  feeds are rounded one after the other.  A floating-point literal such as `0.3` has type
  `double`, so it denotes `f64 (3 / 10)`, and a `float` compared or combined with it is
  promoted to `double` without change of value.  The exponent range is not modelled: for
  `int` arguments all values stay far inside the normal range of both formats.  A division by
  zero, which in C yields NaN or an infinity, is the fault `Fault.divByZero`.
-/

namespace SoundAnalysis

/-! ## Configuration constants (`config.h`) -/

/-- The constant `#define DETECTION_SENSITIVITY 150`. -/
def DETECTION_SENSITIVITY : Int := 150

/-- The constant `#define VOICE_SENSITIVITY_THRESHOLD 100`. -/
def VOICE_SENSITIVITY_THRESHOLD : Int := 100

/-! ## Machine integers -/

/-- Smallest value of a 32-bit `int`. -/
def INT_MIN : Int := -2147483648

/-- Largest value of a 32-bit `int`. -/
def INT_MAX : Int := 2147483647

/-- Result of an `int` operation: the exact value wrapped into 32-bit two's complement. -/
def wrapInt (x : Int) : Int := (x + 2147483648) % 4294967296 - 2147483648

/-! ## Faults and loops -/

/-- What can go wrong while running one of the functions. -/
inductive Fault where
  | outOfBounds
  | divByZero
  deriving DecidableEq, Repr

deriving instance DecidableEq for Except

/-- Read `samples[i]`. -/
def readSample (samples : List Int) (i : Int) : Except Fault Int :=
  if 0 ≤ i then
    match samples[i.toNat]? with
    | some v => .ok v
    | none => .error .outOfBounds
  else .error .outOfBounds

/-- Run `body i` for `n` consecutive values of the loop variable, starting at `i`. -/
def forLoop {σ : Type} (body : Nat → σ → Except Fault σ) : Nat → Nat → σ → Except Fault σ
  | 0, _, s => .ok s
  | n + 1, i, s =>
    match body i s with
    | .ok s' => forLoop body n (i + 1) s'
    | .error e => .error e

/-- The loop `for (int i = lo; i < hi; i++) body`. -/
def forRange {σ : Type} (lo : Nat) (hi : Int) (body : Nat → σ → Except Fault σ) (s : σ) :
    Except Fault σ :=
  forLoop body (hi - lo).toNat lo s

/-! ## Floating point -/

/-- Round a rational to the nearest integer, ties to the even one. -/
def roundHalfEven (q : ℚ) : ℤ :=
  let f := ⌊q⌋
  let r := q - f
  if r < 1 / 2 then f
  else if 1 / 2 < r then f + 1
  else if f % 2 = 0 then f else f + 1

/-- Round a rational to the nearest binary floating-point number with `p` significand bits,
ties to even. -/
def roundTo (p : ℕ) (q : ℚ) : ℚ :=
  if q = 0 then 0
  else
    let u : ℚ := (2 : ℚ) ^ (Int.log 2 |q| - ((p : ℤ) - 1))
    (roundHalfEven (q / u) : ℚ) * u

/-- Rounding to `float` (binary32). -/
def f32 (q : ℚ) : ℚ := roundTo 24 q

/-- Rounding to `double` (binary64). -/
def f64 (q : ℚ) : ℚ := roundTo 53 q

/-- A `float` division `x / y`, with `r32` the rounding of the quotient. -/
def fdivWith (r32 : ℚ → ℚ) (x y : ℚ) : Except Fault ℚ :=
  if y = 0 then .error .divByZero else .ok (r32 (x / y))

/-- The `float` division `x / y`. -/
def fdiv32 (x y : ℚ) : Except Fault ℚ := fdivWith f32 x y

/-- Modelled from the spec: the Arduino `min` of `min(confidence, 1.0)` is not defined in the
sources; the spec says the final value "is the minimum of the accumulated sum and `1.0`". -/
def cmin (a b : ℚ) : ℚ := if a < b then a else b

/-! ## `sound_analysis.h` -/

/-- The condition
`samples[i] > threshold && samples[i] > samples[i-1] && samples[i] > samples[i+1]`,
evaluated left to right with the short-circuit of `&&`. -/
def localMaxAbove (samples : List Int) (threshold : Int) (i : Int) : Except Fault Bool :=
  match readSample samples i with
  | .error e => .error e
  | .ok a =>
    if a > threshold then
      match readSample samples (i - 1) with
      | .error e => .error e
      | .ok b =>
        if a > b then
          match readSample samples (i + 1) with
          | .error e => .error e
          | .ok c => .ok (decide (a > c))
        else .ok false
    else .ok false

/-- The function `bool detectSoundPattern(int* samples, int count, int baselineNoise)`:
two or more spikes among the interior samples. -/
def detectSoundPattern (samples : List Int) (count : Int) (baselineNoise : Int) :
    Except Fault Bool :=
  if count < 3 then .ok false
  else
    let threshold := wrapInt (baselineNoise + Int.tdiv DETECTION_SENSITIVITY 2)
    match forRange 1 (count - 1)
        (fun i (spikes : Int) =>
          match localMaxAbove samples threshold i with
          | .error e => .error e
          | .ok true => .ok (spikes + 1)
          | .ok false => .ok spikes) 0 with
    | .error e => .error e
    | .ok spikes => .ok (decide (spikes ≥ 2))

/-- One iteration of the loop of `detectVoicePattern`; the state is
`(activeCount, peakCount)`. -/
def voiceStep (samples : List Int) (count voiceThreshold : Int) (i : Nat) (st : Int × Int) :
    Except Fault (Int × Int) :=
  match readSample samples i with
  | .error e => .error e
  | .ok s =>
    let activeCount := if s > voiceThreshold then st.1 + 1 else st.1
    if (i : Int) > 0 ∧ (i : Int) < count - 1 then
      match localMaxAbove samples voiceThreshold i with
      | .error e => .error e
      | .ok true => .ok (activeCount, st.2 + 1)
      | .ok false => .ok (activeCount, st.2)
    else .ok (activeCount, st.2)

/-- The function `bool detectVoicePattern(int* samples, int count, int baseline)`: a
mid-range share of active samples together with two or more peaks. -/
def detectVoicePattern (samples : List Int) (count : Int) (baseline : Int) :
    Except Fault Bool :=
  if count < 5 then .ok false
  else
    let voiceThreshold := wrapInt (baseline + VOICE_SENSITIVITY_THRESHOLD)
    match forRange 0 count (voiceStep samples count voiceThreshold) (0, 0) with
    | .error e => .error e
    | .ok (activeCount, peakCount) =>
      match fdiv32 (f32 activeCount) (f32 count) with
      | .error e => .error e
      | .ok activeRatio =>
        .ok (decide (activeRatio > f64 (3 / 10) ∧ activeRatio < f64 (8 / 10) ∧ peakCount ≥ 2))

/-- The local variables of `analyzeHelpSyllables`. -/
structure SyllableState where
  inSyllable : Bool
  syllableCount : Int
  syllableLength : Int
  gapLength : Int
  deriving DecidableEq, Repr

/-- One iteration of the loop of `analyzeHelpSyllables`. -/
def syllableStep (samples : List Int) (threshold : Int) (i : Nat) (st : SyllableState) :
    Except Fault SyllableState :=
  match readSample samples i with
  | .error e => .error e
  | .ok s =>
    if s > threshold then
      if !st.inSyllable then
        -- the `if (syllableCount > 0 && gapLength >= 1 && gapLength <= 4)` block is empty
        .ok { inSyllable := true, syllableCount := st.syllableCount + 1,
              syllableLength := 1, gapLength := 0 }
      else .ok { st with syllableLength := st.syllableLength + 1 }
    else
      if st.inSyllable then
        .ok { inSyllable := false, syllableCount := st.syllableCount,
              syllableLength := 0, gapLength := st.gapLength + 1 }
      else .ok { st with gapLength := st.gapLength + 1 }

/-- The function `bool analyzeHelpSyllables(int* samples, int count, int baseline)`: two
or three syllables. -/
def analyzeHelpSyllables (samples : List Int) (count : Int) (baseline : Int) :
    Except Fault Bool :=
  let threshold := wrapInt (baseline + VOICE_SENSITIVITY_THRESHOLD)
  match forRange 0 count (syllableStep samples threshold)
      { inSyllable := false, syllableCount := 0, syllableLength := 0, gapLength := 0 } with
  | .error e => .error e
  | .ok st => .ok (decide (st.syllableCount ≥ 2 ∧ st.syllableCount ≤ 3))

/-- The loop body `if (samples[i] > voiceThreshold) activeCount++;`. -/
def activeStep (samples : List Int) (voiceThreshold : Int) (i : Nat) (activeCount : Int) :
    Except Fault Int :=
  match readSample samples i with
  | .error e => .error e
  | .ok s => .ok (if s > voiceThreshold then activeCount + 1 else activeCount)

/-- The function `float calculateVoiceConfidence(int* samples, int count, int baseline)`.
The statement `confidence += c` adds in `double` and converts the sum to `float`. -/
def calculateVoiceConfidence (samples : List Int) (count : Int) (baseline : Int) :
    Except Fault ℚ :=
  let confidence : ℚ := f32 (f64 0)
  match detectVoicePattern samples count baseline with
  | .error e => .error e
  | .ok false => .ok (f32 (f64 0))
  | .ok true =>
    match analyzeHelpSyllables samples count baseline with
    | .error e => .error e
    | .ok syllables =>
      let confidence := if syllables then f32 (f64 (confidence + f64 (4 / 10))) else confidence
      let confidence := f32 (f64 (confidence + f64 (3 / 10)))
      let voiceThreshold := wrapInt (baseline + VOICE_SENSITIVITY_THRESHOLD)
      match forRange 0 count (activeStep samples voiceThreshold) 0 with
      | .error e => .error e
      | .ok activeCount =>
        match fdiv32 (f32 activeCount) (f32 count) with
        | .error e => .error e
        | .ok activeRatio =>
          let confidence :=
            if activeRatio ≥ f64 (3 / 10) ∧ activeRatio ≤ f64 (7 / 10) then
              f32 (f64 (confidence + f64 (3 / 10)))
            else confidence
          .ok (f32 (cmin confidence (f64 1)))

/-- One iteration of the loop of `getSoundTrend`; the state is `(increasing, decreasing)`. -/
def trendStep (samples : List Int) (i : Nat) (st : Int × Int) : Except Fault (Int × Int) :=
  match readSample samples i, readSample samples ((i : Int) - 1) with
  | .ok a, .ok b =>
    let increasing := if a > b then st.1 + 1 else st.1
    let decreasing := if a < b then st.2 + 1 else st.2
    .ok (increasing, decreasing)
  | .error e, _ => .error e
  | _, .error e => .error e

/-- The function `int getSoundTrend(int* samples, int count)`: `1` rising, `-1` falling,
`0` stable. -/
def getSoundTrend (samples : List Int) (count : Int) : Except Fault Int :=
  if count < 2 then .ok 0
  else
    match forRange 1 count (trendStep samples) (0, 0) with
    | .error e => .error e
    | .ok (increasing, decreasing) =>
      if increasing > decreasing then .ok 1
      else if decreasing > increasing then .ok (-1)
      else .ok 0

/-- The loop body `float diff = recentSamples[i] - baseline; variance += diff * diff;`, with
`r32` the rounding of a `float` result. -/
def varianceStepWith (r32 : ℚ → ℚ) (recentSamples : List Int) (baseline : Int) (i : Nat)
    (variance : ℚ) : Except Fault ℚ :=
  match readSample recentSamples i with
  | .error e => .error e
  | .ok s =>
    let diff : ℚ := r32 (wrapInt (s - baseline))
    .ok (r32 (variance + r32 (diff * diff)))

/-- The function `float calculateAnomalyScore(int currentLevel, int baseline,
int* recentSamples, int sampleCount)`, with `r32` the rounding of a `float` result and `r64` the rounding of a
`double` result. -/
def calculateAnomalyScoreWith (r32 r64 : ℚ → ℚ) (currentLevel baseline : Int)
    (recentSamples : List Int) (sampleCount : Int) : Except Fault ℚ :=
  let score : ℚ := r32 (r64 0)
  match fdivWith r32 (r32 (wrapInt (currentLevel - baseline))) (r32 DETECTION_SENSITIVITY) with
  | .error e => .error e
  | .ok levelScore =>
    let score := r32 (r64 (score + r64 (levelScore * r64 (4 / 10))))
    match forRange 0 sampleCount (varianceStepWith r32 recentSamples baseline) (r32 0) with
    | .error e => .error e
    | .ok variance =>
      match fdivWith r32 variance (r32 sampleCount) with
      | .error e => .error e
      | .ok variance =>
        match fdivWith r32 variance
            (r32 (wrapInt (DETECTION_SENSITIVITY * DETECTION_SENSITIVITY))) with
        | .error e => .error e
        | .ok scaled =>
          let score := r32 (r64 (score + r64 (scaled * r64 (3 / 10))))
          match detectSoundPattern recentSamples sampleCount baseline with
          | .error e => .error e
          | .ok true => .ok (r32 (r64 (score + r64 (3 / 10))))
          | .ok false => .ok score

/-- The function `calculateAnomalyScore` as the ESP32 runs it: `float` results rounded to
binary32 and `double` results to binary64. -/
def calculateAnomalyScore (currentLevel baseline : Int) (recentSamples : List Int)
    (sampleCount : Int) : Except Fault ℚ :=
  calculateAnomalyScoreWith f32 f64 currentLevel baseline recentSamples sampleCount

/-- The function `calculateAnomalyScore` with every floating-point operation taken as exact:
the same statements computed in real arithmetic, without rounding. -/
def calculateAnomalyScoreExact (currentLevel baseline : Int) (recentSamples : List Int)
    (sampleCount : Int) : Except Fault ℚ :=
  calculateAnomalyScoreWith id id currentLevel baseline recentSamples sampleCount

/-! ## Specification-side notions -/

/-- Index `i` holds a strict local maximum of the window that is strictly above `threshold`. -/
def IsLocalMaxAbove (samples : List Int) (threshold : Int) (i : Nat) : Prop :=
  samples.getD i 0 > threshold ∧ samples.getD i 0 > samples.getD (i - 1) 0 ∧
    samples.getD i 0 > samples.getD (i + 1) 0

instance (samples : List Int) (threshold : Int) :
    DecidablePred (IsLocalMaxAbove samples threshold) :=
  fun _ => inferInstanceAs (Decidable (_ ∧ _ ∧ _))

/-- Number of interior indices `1 ≤ i ≤ N - 2` holding a strict local maximum above
`threshold`. -/
def peakCount (samples : List Int) (threshold : Int) : Nat :=
  ((Finset.Icc 1 (samples.length - 2)).filter (IsLocalMaxAbove samples threshold)).card

/-- Number of samples of the window strictly above `threshold`. -/
def activeCount (samples : List Int) (threshold : Int) : Nat :=
  ((Finset.range samples.length).filter (fun i => samples.getD i 0 > threshold)).card

/-- Index `i` starts a syllable run: its sample is above `threshold` and it is the first index
or follows a sample that is not above `threshold`. -/
def IsRunStart (samples : List Int) (threshold : Int) (i : Nat) : Prop :=
  samples.getD i 0 > threshold ∧ (i = 0 ∨ samples.getD (i - 1) 0 ≤ threshold)

instance (samples : List Int) (threshold : Int) :
    DecidablePred (IsRunStart samples threshold) :=
  fun _ => inferInstanceAs (Decidable (_ ∧ _))

/-- Number of syllable runs: maximal contiguous sub-sequences of samples above `threshold`,
counted by their first index. -/
def runCount (samples : List Int) (threshold : Int) : Nat :=
  ((Finset.range samples.length).filter (IsRunStart samples threshold)).card

/-- Number of adjacent pairs with `samples[i] > samples[i-1]`. -/
def risingPairs (samples : List Int) : Nat :=
  ((Finset.Ico 1 samples.length).filter
    (fun i => samples.getD i 0 > samples.getD (i - 1) 0)).card

/-- Number of adjacent pairs with `samples[i] < samples[i-1]`. -/
def fallingPairs (samples : List Int) : Nat :=
  ((Finset.Ico 1 samples.length).filter
    (fun i => samples.getD i 0 < samples.getD (i - 1) 0)).card

/-- Mean over the window of the squared deviation `(sample - baseline)^2`. -/
def meanSquaredDeviation (samples : List Int) (baseline : Int) : ℚ :=
  (∑ i in Finset.range samples.length, ((samples.getD i 0 - baseline : Int) : ℚ) ^ 2)
    / (samples.length : ℚ)

/-! ## Auxiliary values of the proofs -/

/-- The loop body of `analyzeHelpSyllables` on a sample value `s` that was read. -/
def syllableNext (threshold : Int) (s : Int) (st : SyllableState) : SyllableState :=
  if s > threshold then
    if !st.inSyllable then
      { inSyllable := true, syllableCount := st.syllableCount + 1,
        syllableLength := 1, gapLength := 0 }
    else { st with syllableLength := st.syllableLength + 1 }
  else
    if st.inSyllable then
      { inSyllable := false, syllableCount := st.syllableCount,
        syllableLength := 0, gapLength := st.gapLength + 1 }
    else { st with gapLength := st.gapLength + 1 }

/-- The `float` value `(float)activeCount / count` computed for the whole window with the
given threshold. -/
def activeRatio (samples : List Int) (threshold : Int) : ℚ :=
  f32 (f32 (activeCount samples threshold) / f32 samples.length)

/-- The four `float` values `calculateVoiceConfidence` can return once the voice gate is
passed, by whether the syllable term and the ratio term are earned: `1.0` and the `float`
numbers nearest to `0.7`, `0.6` and `0.3`. -/
def confidenceValue (syllables inRange : Bool) : ℚ :=
  match syllables, inRange with
  | true, true => 1
  | true, false => 11744051 / 16777216
  | false, true => 5033165 / 8388608
  | false, false => 5033165 / 16777216

/-- The `float` variable `variance` after the loop of `calculateAnomalyScore` has run over the
whole window: every square and every partial sum is rounded to `float`. -/
def varianceSum32 (samples : List Int) (baseline : Int) : ℚ :=
  (List.range' 0 samples.length).foldl
    (fun t j => f32 (t + f32 (f32 (wrapInt (samples.getD j 0 - baseline))
      * f32 (wrapInt (samples.getD j 0 - baseline))))) 0

/-- The `float` variable `score` of `calculateAnomalyScore` after the level term. -/
def levelScore32 (currentLevel baseline : Int) : ℚ :=
  f32 (f64 (0 + f64 (f32 (f32 (wrapInt (currentLevel - baseline)) / 150) * f64 (4 / 10))))

/-- The `float` variable `score` of `calculateAnomalyScore` after the variance term. -/
def varianceScore32 (currentLevel baseline : Int) (samples : List Int) : ℚ :=
  f32 (f64 (levelScore32 currentLevel baseline
    + f64 (f32 (f32 (varianceSum32 samples baseline / f32 samples.length) / 22500)
        * f64 (3 / 10))))

/-- The unit roundoff `2^-24` of `float`; every rounding of the model, to `float` or to
`double`, has a relative error of at most this. -/
def unitRoundoff : ℚ := 1 / 16777216

/-- The computed value `x` approximates the exact value `y` after at most `k` roundings:
`|x - y| ≤ ((1 + 2^-24)^k - 1) * M`, where `M` bounds the magnitude of `y`. -/
def ErrWithin (k : ℕ) (x y M : ℚ) : Prop :=
  |x - y| ≤ ((1 + unitRoundoff) ^ k - 1) * M ∧ |y| ≤ M

/-! ## Reads and loops -/

theorem readSample_ok (samples : List Int) (i : Nat) (h : i < samples.length) :
    readSample samples (i : Int) = .ok (samples.getD i 0) := by
  simp [readSample, List.getD_eq_getElem?_getD, List.getElem?_eq_getElem h]

theorem readSample_pred (samples : List Int) (i : Nat) (h1 : 1 ≤ i) (h : i - 1 < samples.length) :
    readSample samples ((i : Int) - 1) = .ok (samples.getD (i - 1) 0) := by
  have : ((i : Int) - 1) = ((i - 1 : Nat) : Int) := by omega
  rw [this, readSample_ok _ _ h]

theorem readSample_succ (samples : List Int) (i : Nat) (h : i + 1 < samples.length) :
    readSample samples ((i : Int) + 1) = .ok (samples.getD (i + 1) 0) := by
  have : ((i : Int) + 1) = ((i + 1 : Nat) : Int) := by omega
  rw [this, readSample_ok _ _ h]

/-- At an interior index the three reads of the local-maximum condition succeed and the
condition is `IsLocalMaxAbove`. -/
theorem localMaxAbove_ok (samples : List Int) (threshold : Int) (i : Nat) (h1 : 1 ≤ i)
    (h2 : i + 1 < samples.length) :
    localMaxAbove samples threshold i = .ok (decide (IsLocalMaxAbove samples threshold i)) := by
  unfold localMaxAbove IsLocalMaxAbove
  rw [readSample_ok _ _ (by omega), readSample_pred _ _ h1 (by omega), readSample_succ _ _ h2]
  by_cases ha : samples.getD i 0 > threshold <;>
    by_cases hb : samples.getD i 0 > samples.getD (i - 1) 0 <;>
    simp [-List.getD_eq_getElem?_getD, ha, hb]

/-- A loop whose body never faults on the indices it visits is a fold over those indices. -/
theorem forLoop_ok {σ : Type} (body : Nat → σ → Except Fault σ) (g : Nat → σ → σ) :
    ∀ (n i : Nat) (s : σ), (∀ j, i ≤ j → j < i + n → ∀ t, body j t = .ok (g j t)) →
      forLoop body n i s = .ok ((List.range' i n).foldl (fun t j => g j t) s) := by
  intro n
  induction n with
  | zero => intro i s _; simp [forLoop]
  | succ n ih =>
    intro i s h
    rw [forLoop, h i (le_refl _) (by omega), List.range'_succ, List.foldl_cons]
    exact ih (i + 1) (g i s) (fun j hj1 hj2 t => h j (by omega) (by omega) t)

/-- A counting loop adds to its counter the number of indices satisfying the condition. -/
theorem foldl_count (p : Nat → Prop) [DecidablePred p] (l : List Nat) (s : Int) :
    l.foldl (fun t j => if p j then t + 1 else t) s
      = s + (l.countP (fun j => decide (p j)) : Nat) := by
  induction l generalizing s with
  | nil => simp
  | cons a l ih =>
    rw [List.foldl_cons, ih, List.countP_cons]
    by_cases h : p a <;> simp [h]; ring

/-- Two counters updated in one loop count independently. -/
theorem foldl_count_pair (p q : Nat → Prop) [DecidablePred p] [DecidablePred q] (l : List Nat)
    (s : Int × Int) :
    l.foldl (fun t j => ((if p j then t.1 + 1 else t.1), (if q j then t.2 + 1 else t.2))) s
      = (s.1 + (l.countP (fun j => decide (p j)) : Nat),
          s.2 + (l.countP (fun j => decide (q j)) : Nat)) := by
  induction l generalizing s with
  | nil => simp
  | cons a l ih =>
    rw [List.foldl_cons, ih, List.countP_cons, List.countP_cons]
    refine Prod.ext ?_ ?_
    · by_cases hp : p a <;> simp [hp]; ring
    · by_cases hq : q a <;> simp [hq]; ring

/-- Counting along `i, i+1, ..., i+n-1` is the size of a filtered interval. -/
theorem countP_range' (p : Nat → Prop) [DecidablePred p] (a n : Nat) :
    (List.range' a n).countP (fun j => decide (p j))
      = ((Finset.Ico a (a + n)).filter p).card := by
  induction n generalizing a with
  | zero => simp
  | succ n ih =>
    rw [List.range'_succ, List.countP_cons, ih]
    have : Finset.Ico a (a + (n + 1)) = insert a (Finset.Ico (a + 1) (a + 1 + n)) := by
      ext x; simp only [Finset.mem_Ico, Finset.mem_insert]; omega
    rw [this, Finset.filter_insert]
    by_cases h : p a
    · rw [if_pos h, Finset.card_insert_of_not_mem (by simp)]; simp [h]
    · rw [if_neg h]; simp [h]

theorem foldl_range'_succ_last {σ : Type} (g : Nat → σ → σ) (n : Nat) (s : σ) :
    (List.range' 0 (n + 1)).foldl (fun t j => g j t) s
      = g n ((List.range' 0 n).foldl (fun t j => g j t) s) := by
  rw [List.range'_concat, List.foldl_append]
  simp

theorem foldl_range'_sum (f : Nat → ℚ) (n : Nat) (v : ℚ) :
    (List.range' 0 n).foldl (fun t j => t + f j) v = v + ∑ i in Finset.range n, f i := by
  induction n with
  | zero => simp
  | succ n ih =>
    rw [foldl_range'_succ_last (fun j t => t + f j), ih, Finset.sum_range_succ]
    ring

theorem card_filter_range_succ (p : Nat → Prop) [DecidablePred p] (n : Nat) :
    ((Finset.range (n + 1)).filter p).card
      = ((Finset.range n).filter p).card + if p n then 1 else 0 := by
  rw [Finset.range_succ, Finset.filter_insert]
  by_cases h : p n
  · rw [if_pos h, if_pos h, Finset.card_insert_of_not_mem (by simp)]
  · rw [if_neg h, if_neg h]; rfl

theorem getD_mem (samples : List Int) (i : Nat) (h : i < samples.length) :
    samples.getD i 0 ∈ samples := by
  rw [List.getD_eq_getElem?_getD, List.getElem?_eq_getElem h]
  exact List.getElem_mem h

/-- An `int` result inside the 32-bit range is not changed by the wrap-around. -/
theorem wrapInt_eq (x : Int) (h1 : INT_MIN ≤ x) (h2 : x ≤ INT_MAX) : wrapInt x = x := by
  unfold wrapInt
  unfold INT_MIN at h1
  unfold INT_MAX at h2
  omega

/-! ## Rounding to nearest, ties to even -/

theorem roundTo_zero (p : ℕ) : roundTo p 0 = 0 := by
  simp [roundTo]

theorem roundHalfEven_eq (x : ℚ) (m : ℤ)
    (h1 : (m : ℚ) - 1 / 2 < x ∨ ((m : ℚ) - 1 / 2 = x ∧ m % 2 = 0))
    (h2 : x < m + 1 / 2 ∨ (x = m + 1 / 2 ∧ m % 2 = 0)) :
    roundHalfEven x = m := by
  unfold roundHalfEven
  simp only
  by_cases hm : (m : ℚ) ≤ x
  · have hf : ⌊x⌋ = m := by
      rw [Int.floor_eq_iff]
      constructor
      · exact hm
      · rcases h2 with h2 | ⟨h2, _⟩ <;> linarith
    rw [hf]
    rcases h2 with h2 | ⟨h2, h3⟩
    · rw [if_pos (by linarith)]
    · rw [if_neg (by linarith), if_neg (by linarith), if_pos h3]
  · push_neg at hm
    have hf : ⌊x⌋ = m - 1 := by
      rw [Int.floor_eq_iff]
      push_cast
      constructor
      · rcases h1 with h1 | ⟨h1, _⟩ <;> linarith
      · linarith
    rw [hf]
    push_cast
    rcases h1 with h1 | ⟨h1, h3⟩
    · rw [if_neg (by linarith), if_pos (by linarith)]
      ring
    · rw [if_neg (by linarith), if_neg (by linarith), if_neg (by omega)]
      ring

/-- The rounding of `x` is within a half of `x`, and even when `x` is a tie. -/
theorem roundHalfEven_spec (x : ℚ) :
    ((roundHalfEven x : ℚ) - 1 / 2 < x ∨
        ((roundHalfEven x : ℚ) - 1 / 2 = x ∧ roundHalfEven x % 2 = 0)) ∧
      (x < roundHalfEven x + 1 / 2 ∨
        (x = roundHalfEven x + 1 / 2 ∧ roundHalfEven x % 2 = 0)) := by
  have h1 : (⌊x⌋ : ℚ) ≤ x := Int.floor_le x
  have h2 : x < ⌊x⌋ + 1 := Int.lt_floor_add_one x
  unfold roundHalfEven
  simp only
  split_ifs with ha hb hc
  · exact ⟨Or.inl (by linarith), Or.inl (by linarith)⟩
  · push_cast
    exact ⟨Or.inl (by linarith), Or.inl (by linarith)⟩
  · have hx : x = ⌊x⌋ + 1 / 2 := by linarith
    exact ⟨Or.inl (by linarith), Or.inr ⟨hx, hc⟩⟩
  · have hx : x = ⌊x⌋ + 1 / 2 := by linarith
    push_cast
    exact ⟨Or.inr ⟨by linarith, by omega⟩, Or.inl (by linarith)⟩

theorem abs_roundHalfEven_sub_le (x : ℚ) : |(roundHalfEven x : ℚ) - x| ≤ 1 / 2 := by
  obtain ⟨h1, h2⟩ := roundHalfEven_spec x
  rw [abs_le]
  constructor
  · rcases h2 with h2 | ⟨h2, _⟩ <;> linarith
  · rcases h1 with h1 | ⟨h1, _⟩ <;> linarith

theorem roundHalfEven_intCast (m : ℤ) : roundHalfEven (m : ℚ) = m :=
  roundHalfEven_eq _ m (Or.inl (by linarith)) (Or.inl (by linarith))

/-- Rounding to the nearest integer is monotone. -/
theorem roundHalfEven_mono {x y : ℚ} (h : x ≤ y) : roundHalfEven x ≤ roundHalfEven y := by
  by_contra hlt
  push_neg at hlt
  obtain ⟨hx1, _⟩ := roundHalfEven_spec x
  obtain ⟨_, hy2⟩ := roundHalfEven_spec y
  have hc : (roundHalfEven y : ℚ) + 1 ≤ roundHalfEven x := by exact_mod_cast hlt
  -- `x ≥ rx - 1/2 ≥ ry + 1/2 ≥ y`, so all are equal and both ties are even: impossible
  rcases hx1 with hx1 | ⟨hx1, hxe⟩
  · rcases hy2 with hy2 | ⟨hy2, _⟩ <;> linarith
  · rcases hy2 with hy2 | ⟨hy2, hye⟩
    · linarith
    · have : (roundHalfEven x : ℚ) = roundHalfEven y + 1 := by linarith
      have : roundHalfEven x = roundHalfEven y + 1 := by exact_mod_cast this
      omega

theorem roundHalfEven_neg (x : ℚ) : roundHalfEven (-x) = -roundHalfEven x := by
  obtain ⟨h1, h2⟩ := roundHalfEven_spec x
  apply roundHalfEven_eq
  · push_cast
    rcases h2 with h2 | ⟨h2, h3⟩
    · exact Or.inl (by linarith)
    · exact Or.inr ⟨by linarith, by omega⟩
  · push_cast
    rcases h1 with h1 | ⟨h1, h3⟩
    · exact Or.inl (by linarith)
    · exact Or.inr ⟨by linarith, by omega⟩

theorem log2_eq (q : ℚ) (e : ℤ) (h1 : (2 : ℚ) ^ e ≤ q) (h2 : q < (2 : ℚ) ^ (e + 1)) :
    Int.log 2 q = e := by
  have hq : 0 < q := lt_of_lt_of_le (by positivity) h1
  apply le_antisymm
  · have := (Int.lt_zpow_iff_log_lt (b := 2) (by norm_num) hq (x := e + 1)).1
      (by exact_mod_cast h2)
    omega
  · exact (Int.zpow_le_iff_le_log (b := 2) (by norm_num) hq).1 (by exact_mod_cast h1)

theorem zpow_log2_le (q : ℚ) (hq : q ≠ 0) : (2 : ℚ) ^ Int.log 2 |q| ≤ |q| := by
  have := Int.zpow_log_le_self (R := ℚ) (b := 2) (by norm_num) (abs_pos.2 hq)
  exact_mod_cast this

theorem lt_zpow_log2_succ (q : ℚ) : |q| < (2 : ℚ) ^ (Int.log 2 |q| + 1) := by
  have := Int.lt_zpow_succ_log_self (R := ℚ) (b := 2) (by norm_num) |q|
  exact_mod_cast this

/-- Evaluation of `roundTo` at a value whose binade `e` and rounded significand `m` are
given. -/
theorem roundTo_eq (p : ℕ) (q : ℚ) (e m : ℤ) (h1 : (2 : ℚ) ^ e ≤ |q|)
    (h2 : |q| < (2 : ℚ) ^ (e + 1))
    (h3 : (m : ℚ) - 1 / 2 < q / 2 ^ (e - ((p : ℤ) - 1)) ∨
      ((m : ℚ) - 1 / 2 = q / 2 ^ (e - ((p : ℤ) - 1)) ∧ m % 2 = 0))
    (h4 : q / 2 ^ (e - ((p : ℤ) - 1)) < m + 1 / 2 ∨
      (q / 2 ^ (e - ((p : ℤ) - 1)) = m + 1 / 2 ∧ m % 2 = 0)) :
    roundTo p q = m * 2 ^ (e - ((p : ℤ) - 1)) := by
  have hq : q ≠ 0 := by
    intro h
    rw [h, abs_zero] at h1
    have : (0 : ℚ) < 2 ^ e := by positivity
    linarith
  unfold roundTo
  rw [if_neg hq]
  simp only
  rw [log2_eq _ e h1 h2, roundHalfEven_eq _ m h3 h4]

/-- A non-zero value does not round to zero. -/
theorem roundTo_ne_zero (p : ℕ) (hp : 1 ≤ p) (q : ℚ) (hq : q ≠ 0) : roundTo p q ≠ 0 := by
  unfold roundTo
  rw [if_neg hq]
  simp only
  have hu : (0 : ℚ) < 2 ^ (Int.log 2 |q| - ((p : ℤ) - 1)) := by positivity
  have h1 : (2 : ℚ) ^ ((p : ℤ) - 1) * 2 ^ (Int.log 2 |q| - ((p : ℤ) - 1)) ≤ |q| := by
    rw [← zpow_add₀ (by norm_num : (2 : ℚ) ≠ 0)]
    have : (p : ℤ) - 1 + (Int.log 2 |q| - ((p : ℤ) - 1)) = Int.log 2 |q| := by ring
    rw [this]
    exact zpow_log2_le q hq
  have h2 : (1 : ℚ) ≤ 2 ^ ((p : ℤ) - 1) := by
    have : ((p : ℤ) - 1) = ((p - 1 : ℕ) : ℤ) := by omega
    rw [this, zpow_natCast]
    exact one_le_pow₀ (by norm_num)
  have h3 : (1 : ℚ) ≤ |q / 2 ^ (Int.log 2 |q| - ((p : ℤ) - 1))| := by
    rw [abs_div, abs_of_pos hu, le_div_iff₀ hu]
    calc 1 * 2 ^ (Int.log 2 |q| - ((p : ℤ) - 1))
        ≤ 2 ^ ((p : ℤ) - 1) * 2 ^ (Int.log 2 |q| - ((p : ℤ) - 1)) :=
          mul_le_mul_of_nonneg_right h2 hu.le
      _ ≤ |q| := h1
  have h4 := abs_roundHalfEven_sub_le (q / 2 ^ (Int.log 2 |q| - ((p : ℤ) - 1)))
  intro h0
  rcases mul_eq_zero.1 h0 with h0 | h0
  · rw [h0] at h4
    simp only [zero_sub, abs_neg] at h4
    linarith
  · exact absurd h0 hu.ne'

theorem f32_ne_zero (q : ℚ) (hq : q ≠ 0) : f32 q ≠ 0 :=
  roundTo_ne_zero 24 (by norm_num) q hq

theorem zpow_le_roundTo (p : ℕ) (hp : 1 ≤ p) (x : ℚ) (hx : 0 < x) :
    (2 : ℚ) ^ Int.log 2 |x| ≤ roundTo p x := by
  unfold roundTo
  rw [if_neg hx.ne']
  simp only
  set e := Int.log 2 |x| with he
  have hu : (0 : ℚ) < 2 ^ (e - ((p : ℤ) - 1)) := by positivity
  have hpow : ((2 : ℤ) ^ (p - 1) : ℤ) = roundHalfEven (((2 : ℤ) ^ (p - 1) : ℤ) : ℚ) :=
    (roundHalfEven_intCast _).symm
  have hsplit : (2 : ℚ) ^ e = (((2 : ℤ) ^ (p - 1) : ℤ) : ℚ) * 2 ^ (e - ((p : ℤ) - 1)) := by
    push_cast
    rw [← zpow_natCast, ← zpow_add₀ (by norm_num : (2 : ℚ) ≠ 0)]
    congr 1
    omega
  have hle : (((2 : ℤ) ^ (p - 1) : ℤ) : ℚ) ≤ x / 2 ^ (e - ((p : ℤ) - 1)) := by
    rw [le_div_iff₀ hu, ← hsplit]
    have h := zpow_log2_le x hx.ne'
    rw [← he, abs_of_pos hx] at h
    exact h
  have hr : ((2 : ℤ) ^ (p - 1) : ℤ) ≤ roundHalfEven (x / 2 ^ (e - ((p : ℤ) - 1))) := by
    rw [hpow]
    exact roundHalfEven_mono hle
  rw [hsplit]
  exact mul_le_mul_of_nonneg_right (by exact_mod_cast hr) hu.le

theorem roundTo_le_zpow (p : ℕ) (x : ℚ) (hx : 0 < x) :
    roundTo p x ≤ (2 : ℚ) ^ (Int.log 2 |x| + 1) := by
  unfold roundTo
  rw [if_neg hx.ne']
  simp only
  set e := Int.log 2 |x| with he
  have hu : (0 : ℚ) < 2 ^ (e - ((p : ℤ) - 1)) := by positivity
  have hpow : ((2 : ℤ) ^ p : ℤ) = roundHalfEven (((2 : ℤ) ^ p : ℤ) : ℚ) :=
    (roundHalfEven_intCast _).symm
  have hsplit : (2 : ℚ) ^ (e + 1) = (((2 : ℤ) ^ p : ℤ) : ℚ) * 2 ^ (e - ((p : ℤ) - 1)) := by
    push_cast
    rw [← zpow_natCast, ← zpow_add₀ (by norm_num : (2 : ℚ) ≠ 0)]
    congr 1
    omega
  have hle : x / 2 ^ (e - ((p : ℤ) - 1)) ≤ (((2 : ℤ) ^ p : ℤ) : ℚ) := by
    rw [div_le_iff₀ hu, ← hsplit]
    have h := lt_zpow_log2_succ x
    rw [← he, abs_of_pos hx] at h
    exact h.le
  have hr : roundHalfEven (x / 2 ^ (e - ((p : ℤ) - 1))) ≤ ((2 : ℤ) ^ p : ℤ) := by
    rw [hpow]
    exact roundHalfEven_mono hle
  rw [hsplit]
  exact mul_le_mul_of_nonneg_right (by exact_mod_cast hr) hu.le

theorem roundTo_mono_pos (p : ℕ) (hp : 1 ≤ p) {x y : ℚ} (hx : 0 < x) (hxy : x ≤ y) :
    roundTo p x ≤ roundTo p y := by
  have hy : 0 < y := lt_of_lt_of_le hx hxy
  have hlog : Int.log 2 |x| ≤ Int.log 2 |y| := by
    rw [abs_of_pos hx, abs_of_pos hy]
    exact Int.log_mono_right hx hxy
  rcases hlog.lt_or_eq with hlt | heq
  · calc roundTo p x ≤ (2 : ℚ) ^ (Int.log 2 |x| + 1) := roundTo_le_zpow p x hx
      _ ≤ (2 : ℚ) ^ Int.log 2 |y| := zpow_le_zpow_right₀ (by norm_num) (by omega)
      _ ≤ roundTo p y := zpow_le_roundTo p hp y hy
  · unfold roundTo
    rw [if_neg hx.ne', if_neg hy.ne']
    simp only
    rw [heq]
    have hu : (0 : ℚ) < 2 ^ (Int.log 2 |y| - ((p : ℤ) - 1)) := by positivity
    have := roundHalfEven_mono (div_le_div_of_nonneg_right hxy hu.le)
    exact mul_le_mul_of_nonneg_right (by exact_mod_cast this) hu.le

theorem roundTo_nonneg (p : ℕ) (hp : 1 ≤ p) (x : ℚ) (hx : 0 ≤ x) : 0 ≤ roundTo p x := by
  rcases hx.lt_or_eq with h | h
  · exact le_trans (by positivity) (zpow_le_roundTo p hp x h)
  · rw [← h, roundTo_zero]

/-- Rounding commutes with negation. -/
theorem roundTo_neg (p : ℕ) (x : ℚ) : roundTo p (-x) = -roundTo p x := by
  unfold roundTo
  by_cases hx : x = 0
  · simp [hx]
  · rw [if_neg hx, if_neg (neg_ne_zero.2 hx)]
    simp only
    rw [abs_neg, neg_div, roundHalfEven_neg]
    push_cast
    ring

/-- Rounding to nearest is monotone. -/
theorem roundTo_mono (p : ℕ) (hp : 1 ≤ p) {x y : ℚ} (hxy : x ≤ y) :
    roundTo p x ≤ roundTo p y := by
  rcases lt_trichotomy 0 x with hx | hx | hx
  · exact roundTo_mono_pos p hp hx hxy
  · rw [← hx, roundTo_zero]
    exact roundTo_nonneg p hp y (by linarith)
  · rcases le_or_lt 0 y with hy | hy
    · have h1 : 0 ≤ roundTo p (-x) := roundTo_nonneg p hp (-x) (by linarith)
      rw [roundTo_neg] at h1
      have h2 := roundTo_nonneg p hp y hy
      linarith
    · have h1 := roundTo_mono_pos p hp (by linarith : 0 < -y) (by linarith : -y ≤ -x)
      rw [roundTo_neg, roundTo_neg] at h1
      linarith

theorem f32_mono {x y : ℚ} (hxy : x ≤ y) : f32 x ≤ f32 y :=
  roundTo_mono 24 (by norm_num) hxy

theorem f64_mono {x y : ℚ} (hxy : x ≤ y) : f64 x ≤ f64 y :=
  roundTo_mono 53 (by norm_num) hxy

/-- A natural number below `2 ^ p` is a floating-point number with `p` significand bits. -/
theorem roundTo_natCast (p : ℕ) (n : ℕ) (h : n < 2 ^ p) : roundTo p (n : ℚ) = n := by
  by_cases hn : n = 0
  · rw [hn, Nat.cast_zero, roundTo_zero]
  · have hpos : (0 : ℚ) < n := by exact_mod_cast Nat.pos_of_ne_zero hn
    have hlog : Int.log 2 |(n : ℚ)| < p := by
      rw [abs_of_pos hpos]
      apply (Int.lt_zpow_iff_log_lt (b := 2) (by norm_num) hpos).1
      rw [zpow_natCast]
      exact_mod_cast h
    unfold roundTo
    rw [if_neg hpos.ne']
    simp only
    obtain ⟨k, hk⟩ : ∃ k : ℕ, (k : ℤ) = (p : ℤ) - 1 - Int.log 2 |(n : ℚ)| :=
      ⟨((p : ℤ) - 1 - Int.log 2 |(n : ℚ)|).toNat, by omega⟩
    have hu : (2 : ℚ) ^ (Int.log 2 |(n : ℚ)| - ((p : ℤ) - 1)) = ((2 : ℚ) ^ k)⁻¹ := by
      rw [← zpow_natCast, ← zpow_neg]
      congr 1
      omega
    rw [hu]
    have hpow : (0 : ℚ) < 2 ^ k := by positivity
    have hq : (n : ℚ) / ((2 : ℚ) ^ k)⁻¹ = ((n * 2 ^ k : ℕ) : ℤ) := by
      rw [div_inv_eq_mul]
      push_cast
      ring
    rw [hq, roundHalfEven_intCast]
    push_cast
    field_simp

theorem f32_natCast (n : ℕ) (h : n < 16777216) : f32 (n : ℚ) = n :=
  roundTo_natCast 24 n (by norm_num; exact h)

theorem abs_roundTo_sub_le (p : ℕ) (x : ℚ) :
    |roundTo p x - x| ≤ (2 : ℚ) ^ (-(p : ℤ)) * |x| := by
  by_cases hx : x = 0
  · rw [hx, roundTo_zero]
    simp
  · unfold roundTo
    rw [if_neg hx]
    simp only
    set e := Int.log 2 |x| with he
    have hu : (0 : ℚ) < 2 ^ (e - ((p : ℤ) - 1)) := by positivity
    have h1 := abs_roundHalfEven_sub_le (x / 2 ^ (e - ((p : ℤ) - 1)))
    have h2 : (roundHalfEven (x / 2 ^ (e - ((p : ℤ) - 1))) : ℚ) * 2 ^ (e - ((p : ℤ) - 1)) - x
        = ((roundHalfEven (x / 2 ^ (e - ((p : ℤ) - 1))) : ℚ) - x / 2 ^ (e - ((p : ℤ) - 1)))
          * 2 ^ (e - ((p : ℤ) - 1)) := by
      field_simp
    rw [h2, abs_mul, abs_of_pos hu]
    have h3 : (1 : ℚ) / 2 * 2 ^ (e - ((p : ℤ) - 1)) = 2 ^ (-(p : ℤ)) * 2 ^ e := by
      rw [← zpow_add₀ (by norm_num : (2 : ℚ) ≠ 0)]
      have : e - ((p : ℤ) - 1) = (-(p : ℤ) + e) + 1 := by ring
      rw [this, zpow_add_one₀ (by norm_num : (2 : ℚ) ≠ 0)]
      ring
    have h4 : (2 : ℚ) ^ e ≤ |x| := by
      have := zpow_log2_le x hx
      rwa [← he] at this
    calc |(roundHalfEven (x / 2 ^ (e - ((p : ℤ) - 1))) : ℚ) - x / 2 ^ (e - ((p : ℤ) - 1))|
          * 2 ^ (e - ((p : ℤ) - 1))
        ≤ 1 / 2 * 2 ^ (e - ((p : ℤ) - 1)) := mul_le_mul_of_nonneg_right h1 hu.le
      _ = 2 ^ (-(p : ℤ)) * 2 ^ e := h3
      _ ≤ 2 ^ (-(p : ℤ)) * |x| := mul_le_mul_of_nonneg_left h4 (by positivity)

theorem abs_f32_sub_le (x : ℚ) : |f32 x - x| ≤ unitRoundoff * |x| := by
  have h := abs_roundTo_sub_le 24 x
  have e : (2 : ℚ) ^ (-((24 : ℕ) : ℤ)) = unitRoundoff := by
    unfold unitRoundoff
    norm_num [zpow_neg]
  rw [e] at h
  exact h

theorem abs_f64_sub_le (x : ℚ) : |f64 x - x| ≤ unitRoundoff * |x| := by
  have h := abs_roundTo_sub_le 53 x
  have e : (2 : ℚ) ^ (-((53 : ℕ) : ℤ)) ≤ unitRoundoff := by
    unfold unitRoundoff
    norm_num [zpow_neg]
  exact le_trans h (mul_le_mul_of_nonneg_right e (abs_nonneg x))

/-! ## Accumulated rounding error -/

theorem errWithin_exact (y : ℚ) : ErrWithin 0 y y |y| := by
  unfold ErrWithin
  simp

theorem one_le_growth (k : ℕ) : (1 : ℚ) ≤ (1 + unitRoundoff) ^ k :=
  one_le_pow₀ (by unfold unitRoundoff; norm_num)

theorem errWithin_nonneg {k : ℕ} {x y M : ℚ} (h : ErrWithin k x y M) : 0 ≤ M :=
  le_trans (abs_nonneg y) h.2

theorem errWithin_mono {k k' : ℕ} {x y M : ℚ} (h : ErrWithin k x y M) (hk : k ≤ k') :
    ErrWithin k' x y M := by
  refine ⟨le_trans h.1 (mul_le_mul_of_nonneg_right ?_ (errWithin_nonneg h)), h.2⟩
  have : (1 + unitRoundoff) ^ k ≤ (1 + unitRoundoff) ^ k' :=
    pow_le_pow_right₀ (by unfold unitRoundoff; norm_num) hk
  linarith

/-- One more rounding adds one to the number of roundings. -/
theorem errWithin_round (r : ℚ → ℚ) (hr : ∀ x, |r x - x| ≤ unitRoundoff * |x|) {k : ℕ}
    {x y M : ℚ} (h : ErrWithin k x y M) : ErrWithin (k + 1) (r x) y M := by
  obtain ⟨h1, h2⟩ := h
  refine ⟨?_, h2⟩
  have hM : 0 ≤ M := le_trans (abs_nonneg y) h2
  have hg := one_le_growth k
  have hu : (0 : ℚ) ≤ unitRoundoff := by unfold unitRoundoff; norm_num
  have hx : |x| ≤ (1 + unitRoundoff) ^ k * M := by
    have : |x| ≤ |x - y| + |y| := by
      have := abs_add (x - y) y
      simpa using this
    nlinarith
  have h3 : |r x - y| ≤ |r x - x| + |x - y| := by
    have := abs_add (r x - x) (x - y)
    simpa using this
  have h4 := hr x
  have h5 : unitRoundoff * |x| ≤ unitRoundoff * ((1 + unitRoundoff) ^ k * M) :=
    mul_le_mul_of_nonneg_left hx hu
  rw [pow_succ]
  nlinarith

theorem errWithin_f32 {k : ℕ} {x y M : ℚ} (h : ErrWithin k x y M) :
    ErrWithin (k + 1) (f32 x) y M :=
  errWithin_round f32 abs_f32_sub_le h

theorem errWithin_f64 {k : ℕ} {x y M : ℚ} (h : ErrWithin k x y M) :
    ErrWithin (k + 1) (f64 x) y M :=
  errWithin_round f64 abs_f64_sub_le h

/-- A sum is as accurate as its terms, relative to the sum of their magnitudes. -/
theorem errWithin_add {k : ℕ} {a b M c d M' : ℚ} (h : ErrWithin k a b M)
    (h' : ErrWithin k c d M') : ErrWithin k (a + c) (b + d) (M + M') := by
  obtain ⟨h1, h2⟩ := h
  obtain ⟨h3, h4⟩ := h'
  constructor
  · have : |a + c - (b + d)| ≤ |a - b| + |c - d| := by
      have := abs_add (a - b) (c - d)
      have e : a - b + (c - d) = a + c - (b + d) := by ring
      rwa [e] at this
    linarith
  · exact le_trans (abs_add b d) (by linarith)

/-- The roundings of two factors add up in their product. -/
theorem errWithin_mul {j k : ℕ} {a b M c d M' : ℚ} (h : ErrWithin j a b M)
    (h' : ErrWithin k c d M') : ErrWithin (j + k) (a * c) (b * d) (M * M') := by
  obtain ⟨h1, h2⟩ := h
  obtain ⟨h3, h4⟩ := h'
  have hM : 0 ≤ M := le_trans (abs_nonneg b) h2
  have hM' : 0 ≤ M' := le_trans (abs_nonneg d) h4
  have hj := one_le_growth j
  have hk := one_le_growth k
  constructor
  · have e : a * c - b * d = (a - b) * c + b * (c - d) := by ring
    have hc : |c| ≤ (1 + unitRoundoff) ^ k * M' := by
      have : |c| ≤ |c - d| + |d| := by
        have := abs_add (c - d) d
        simpa using this
      nlinarith
    have t1 : |(a - b) * c| ≤ (((1 + unitRoundoff) ^ j - 1) * M)
        * ((1 + unitRoundoff) ^ k * M') := by
      rw [abs_mul]
      exact mul_le_mul h1 hc (abs_nonneg c) (mul_nonneg (by linarith) hM)
    have t2 : |b * (c - d)| ≤ M * (((1 + unitRoundoff) ^ k - 1) * M') := by
      rw [abs_mul]
      exact mul_le_mul h2 h3 (abs_nonneg _) hM
    rw [e, pow_add]
    calc |(a - b) * c + b * (c - d)| ≤ |(a - b) * c| + |b * (c - d)| := abs_add _ _
      _ ≤ (((1 + unitRoundoff) ^ j - 1) * M) * ((1 + unitRoundoff) ^ k * M')
          + M * (((1 + unitRoundoff) ^ k - 1) * M') := add_le_add t1 t2
      _ = ((1 + unitRoundoff) ^ j * (1 + unitRoundoff) ^ k - 1) * (M * M') := by ring
  · rw [abs_mul]
    exact mul_le_mul h2 h4 (abs_nonneg d) hM

theorem errWithin_div {k : ℕ} {a b M : ℚ} (h : ErrWithin k a b M) (c : ℚ) (hc : 0 < c) :
    ErrWithin k (a / c) (b / c) (M / c) := by
  obtain ⟨h1, h2⟩ := h
  constructor
  · have e : a / c - b / c = (a - b) / c := by ring
    rw [e, abs_div, abs_of_pos hc, div_le_iff₀ hc]
    have : ((1 + unitRoundoff) ^ k - 1) * (M / c) * c = ((1 + unitRoundoff) ^ k - 1) * M := by
      field_simp
    rw [this]
    exact h1
  · rw [abs_div, abs_of_pos hc]
    exact div_le_div_of_nonneg_right h2 hc.le

theorem errWithin_congr {k : ℕ} {x y M y' M' : ℚ} (h : ErrWithin k x y M) (hy : y = y')
    (hM : M = M') : ErrWithin k x y' M' := by
  rw [← hy, ← hM]
  exact h

theorem errWithin_const (q : ℚ) : ErrWithin 1 (f64 q) q |q| :=
  errWithin_f64 (errWithin_exact q)

/-! ## Values of the floating-point constants -/

/-- The `double` literal `0.3`. -/
theorem f64_three_tenths :
    f64 (3 / 10) = 5404319552844595 / 18014398509481984 := by
  unfold f64
  rw [roundTo_eq 53 (3 / 10) (-2) 5404319552844595] <;>
    norm_num [abs_of_pos]

/-- The `double` literal `0.4`. -/
theorem f64_four_tenths :
    f64 (2 / 5) = 3602879701896397 / 9007199254740992 := by
  unfold f64
  rw [roundTo_eq 53 (2 / 5) (-2) 7205759403792794] <;>
    norm_num [abs_of_pos]

/-- The `double` literal `0.7`. -/
theorem f64_seven_tenths :
    f64 (7 / 10) = 3152519739159347 / 4503599627370496 := by
  unfold f64
  rw [roundTo_eq 53 (7 / 10) (-1) 6305039478318694] <;>
    norm_num [abs_of_pos]

/-- The `double` literal `0.8`. -/
theorem f64_eight_tenths :
    f64 (4 / 5) = 3602879701896397 / 4503599627370496 := by
  unfold f64
  rw [roundTo_eq 53 (4 / 5) (-1) 7205759403792794] <;>
    norm_num [abs_of_pos]

/-- The `double` literal `1.0`. -/
theorem f64_one :
    f64 (1) = 1 := by
  unfold f64
  rw [roundTo_eq 53 (1) 0 4503599627370496] <;>
    norm_num [abs_of_pos]

/-- The `float` value `1.0`. -/
theorem f32_one :
    f32 (1) = 1 := by
  unfold f32
  rw [roundTo_eq 24 (1) 0 8388608] <;>
    norm_num [abs_of_pos]

/-- The `float` nearest to `0.3`. -/
theorem f32_three_tenths :
    f32 (3 / 10) = 5033165 / 16777216 := by
  unfold f32
  rw [roundTo_eq 24 (3 / 10) (-2) 10066330] <;>
    norm_num [abs_of_pos]

/-- The `float` nearest to `0.6`. -/
theorem f32_six_tenths :
    f32 (3 / 5) = 5033165 / 8388608 := by
  unfold f32
  rw [roundTo_eq 24 (3 / 5) (-1) 10066330] <;>
    norm_num [abs_of_pos]

/-- The `float` nearest to `0.7`. -/
theorem f32_seven_tenths :
    f32 (7 / 10) = 11744051 / 16777216 := by
  unfold f32
  rw [roundTo_eq 24 (7 / 10) (-1) 11744051] <;>
    norm_num [abs_of_pos]

/-- The `float` nearest to `0.8`. -/
theorem f32_eight_tenths :
    f32 (4 / 5) = 13421773 / 16777216 := by
  unfold f32
  rw [roundTo_eq 24 (4 / 5) (-1) 13421773] <;>
    norm_num [abs_of_pos]

/-- Adding the literal `0.4` to `0.0` in `double`. -/
theorem f64_dbl_four_tenths :
    f64 (3602879701896397 / 9007199254740992) = 3602879701896397 / 9007199254740992 := by
  unfold f64
  rw [roundTo_eq 53 (3602879701896397 / 9007199254740992) (-2) 7205759403792794] <;>
    norm_num [abs_of_pos]

/-- The `double` `0.4` converted to `float`. -/
theorem f32_dbl_four_tenths :
    f32 (3602879701896397 / 9007199254740992) = 13421773 / 33554432 := by
  unfold f32
  rw [roundTo_eq 24 (3602879701896397 / 9007199254740992) (-2) 13421773] <;>
    norm_num [abs_of_pos]

/-- Adding the literal `0.3` to `0.0` in `double`. -/
theorem f64_dbl_three_tenths :
    f64 (5404319552844595 / 18014398509481984) = 5404319552844595 / 18014398509481984 := by
  unfold f64
  rw [roundTo_eq 53 (5404319552844595 / 18014398509481984) (-2) 5404319552844595] <;>
    norm_num [abs_of_pos]

/-- The `double` `0.3` converted to `float`. -/
theorem f32_dbl_three_tenths :
    f32 (5404319552844595 / 18014398509481984) = 5033165 / 16777216 := by
  unfold f32
  rw [roundTo_eq 24 (5404319552844595 / 18014398509481984) (-2) 10066330] <;>
    norm_num [abs_of_pos]

/-- The `double` sum of the `float` `0.4` and the literal `0.3`. -/
theorem f64_sum_04_03 :
    f64 (12610079064011571 / 18014398509481984) = 3152519766002893 / 4503599627370496 := by
  unfold f64
  rw [roundTo_eq 53 (12610079064011571 / 18014398509481984) (-1) 6305039532005786] <;>
    norm_num [abs_of_pos]

/-- The sum `0.4 + 0.3` converted to `float`. -/
theorem f32_sum_04_03 :
    f32 (3152519766002893 / 4503599627370496) = 11744051 / 16777216 := by
  unfold f32
  rw [roundTo_eq 24 (3152519766002893 / 4503599627370496) (-1) 11744051] <;>
    norm_num [abs_of_pos]

/-- The `double` sum of the `float` `0.7` and the literal `0.3`. -/
theorem f64_sum_07_03 :
    f64 (18014398294733619 / 18014398509481984) = 4503599573683405 / 4503599627370496 := by
  unfold f64
  rw [roundTo_eq 53 (18014398294733619 / 18014398509481984) (-1) 9007199147366810] <;>
    norm_num [abs_of_pos]

/-- The sum `0.7 + 0.3` converted to `float`. -/
theorem f32_sum_07_03 :
    f32 (4503599573683405 / 4503599627370496) = 1 := by
  unfold f32
  rw [roundTo_eq 24 (4503599573683405 / 4503599627370496) (-1) 16777216] <;>
    norm_num [abs_of_pos]

/-- The `double` sum of the `float` `0.3` and the literal `0.3`. -/
theorem f64_sum_03_03 :
    f64 (10808639320437555 / 18014398509481984) = 2702159830109389 / 4503599627370496 := by
  unfold f64
  rw [roundTo_eq 53 (10808639320437555 / 18014398509481984) (-1) 5404319660218778] <;>
    norm_num [abs_of_pos]

/-- The sum `0.3 + 0.3` converted to `float`. -/
theorem f32_sum_03_03 :
    f32 (2702159830109389 / 4503599627370496) = 5033165 / 8388608 := by
  unfold f32
  rw [roundTo_eq 24 (2702159830109389 / 4503599627370496) (-1) 10066330] <;>
    norm_num [abs_of_pos]

/-- A `float` converts to itself: `0.3`. -/
theorem f32_flt_three_tenths :
    f32 (5033165 / 16777216) = 5033165 / 16777216 := by
  unfold f32
  rw [roundTo_eq 24 (5033165 / 16777216) (-2) 10066330] <;>
    norm_num [abs_of_pos]

/-- A `float` converts to itself: `0.6`. -/
theorem f32_flt_six_tenths :
    f32 (5033165 / 8388608) = 5033165 / 8388608 := by
  unfold f32
  rw [roundTo_eq 24 (5033165 / 8388608) (-1) 10066330] <;>
    norm_num [abs_of_pos]

/-- A `float` converts to itself: `0.7`. -/
theorem f32_flt_seven_tenths :
    f32 (11744051 / 16777216) = 11744051 / 16777216 := by
  unfold f32
  rw [roundTo_eq 24 (11744051 / 16777216) (-1) 11744051] <;>
    norm_num [abs_of_pos]

/-- The count `3` converted to `float`. -/
theorem f32_three :
    f32 (3) = 3 := by
  unfold f32
  rw [roundTo_eq 24 (3) 1 12582912] <;>
    norm_num [abs_of_pos]

/-- The count `5` converted to `float`. -/
theorem f32_five :
    f32 (5) = 5 := by
  unfold f32
  rw [roundTo_eq 24 (5) 2 10485760] <;>
    norm_num [abs_of_pos]

/-- The count `10` converted to `float`. -/
theorem f32_ten :
    f32 (10) = 10 := by
  unfold f32
  rw [roundTo_eq 24 (10) 3 10485760] <;>
    norm_num [abs_of_pos]

/-- Rounding the largest ratio below `3/10` a window of at most `2^22` samples can have. -/
theorem f32_below_three_tenths :
    f32 (12582911 / 41943040) = 10066329 / 33554432 := by
  unfold f32
  rw [roundTo_eq 24 (12582911 / 41943040) (-2) 10066329] <;>
    norm_num [abs_of_pos]

/-- Rounding the largest ratio below `4/5` a window of at most `2^22` samples can have. -/
theorem f32_below_eight_tenths :
    f32 (3355443 / 4194304) = 3355443 / 4194304 := by
  unfold f32
  rw [roundTo_eq 24 (3355443 / 4194304) (-1) 13421772] <;>
    norm_num [abs_of_pos]

/-- Rounding the smallest ratio above `7/10` a window of at most `2^22` samples can have. -/
theorem f32_above_seven_tenths :
    f32 (29360129 / 41943040) = 2936013 / 4194304 := by
  unfold f32
  rw [roundTo_eq 24 (29360129 / 41943040) (-1) 11744052] <;>
    norm_num [abs_of_pos]

/-- The `int` value `INT_MIN` converted to `float`. -/
theorem f32_int_min :
    f32 (-2147483648) = -2147483648 := by
  unfold f32
  rw [roundTo_eq 24 (-2147483648) 31 (-8388608)] <;>
    norm_num [abs_of_pos, abs_of_neg]

/-- The constant `150` converted to `float`. -/
theorem f32_sensitivity :
    f32 (150) = 150 := by
  unfold f32
  rw [roundTo_eq 24 (150) 7 9830400] <;>
    norm_num [abs_of_pos, abs_of_neg]

/-- The constant `150 * 150` converted to `float`. -/
theorem f32_sensitivity_sq :
    f32 (22500) = 22500 := by
  unfold f32
  rw [roundTo_eq 24 (22500) 14 11520000] <;>
    norm_num [abs_of_pos, abs_of_neg]

/-- The `float` quotient `INT_MIN / 150`. -/
theorem f32_level_int_min :
    f32 (-(1073741824 / 75)) = -14316558 := by
  unfold f32
  rw [roundTo_eq 24 (-(1073741824 / 75)) 23 (-14316558)] <;>
    norm_num [abs_of_pos, abs_of_neg]

/-- The `double` product of that quotient and the literal `0.4`. -/
theorem f64_level_int_min_scaled :
    f64 (-(25790418109611238820763 / 4503599627370496)) = -(6148914840128717 / 1073741824) := by
  unfold f64
  rw [roundTo_eq 53 (-(25790418109611238820763 / 4503599627370496)) 22 (-6148914840128717)] <;>
    norm_num [abs_of_pos, abs_of_neg]

/-- Adding that product to the score `0.0` in `double`. -/
theorem f64_level_int_min_sum :
    f64 (-(6148914840128717 / 1073741824)) = -(6148914840128717 / 1073741824) := by
  unfold f64
  rw [roundTo_eq 53 (-(6148914840128717 / 1073741824)) 22 (-6148914840128717)] <;>
    norm_num [abs_of_pos, abs_of_neg]

/-- The score after the level term, converted to `float`. -/
theorem f32_level_int_min_score :
    f32 (-(6148914840128717 / 1073741824)) = -5726623 := by
  unfold f32
  rw [roundTo_eq 24 (-(6148914840128717 / 1073741824)) 22 (-11453246)] <;>
    norm_num [abs_of_pos, abs_of_neg]

/-- Adding a zero variance term to that score in `double`. -/
theorem f64_level_int_min_keep :
    f64 (-5726623) = -5726623 := by
  unfold f64
  rw [roundTo_eq 53 (-5726623) 22 (-6148914625380352)] <;>
    norm_num [abs_of_pos, abs_of_neg]

/-- The score after the variance term, converted to `float`. -/
theorem f32_level_int_min_keep :
    f32 (-5726623) = -5726623 := by
  unfold f32
  rw [roundTo_eq 24 (-5726623) 22 (-11453246)] <;>
    norm_num [abs_of_pos, abs_of_neg]

/-! ## `detectSoundPattern` -/

/-- The peak-counting loop shared by `detectSoundPattern` and `detectVoicePattern`, run over the
interior indices of the whole window. -/
theorem spikeLoop_eq (samples : List Int) (threshold : Int) (h : ¬ ((samples.length : Int) < 3)) :
    forRange 1 ((samples.length : Int) - 1)
        (fun i (spikes : Int) =>
          match localMaxAbove samples threshold i with
          | .error e => .error e
          | .ok true => .ok (spikes + 1)
          | .ok false => .ok spikes) 0
      = .ok ((peakCount samples threshold : Nat) : Int) := by
  have hn : ((samples.length : Int) - 1 - ((1 : Nat) : Int)).toNat = samples.length - 2 := by omega
  unfold forRange
  rw [hn, forLoop_ok _ (fun j t => if IsLocalMaxAbove samples threshold j then t + 1 else t)]
  · rw [foldl_count, countP_range', peakCount]
    have : Finset.Ico 1 (1 + (samples.length - 2)) = Finset.Icc 1 (samples.length - 2) := by
      ext x; simp only [Finset.mem_Ico, Finset.mem_Icc]; omega
    rw [this]; simp
  · intro j hj1 hj2 t
    rw [localMaxAbove_ok _ _ _ hj1 (by omega)]
    by_cases hp : IsLocalMaxAbove samples threshold j <;> simp [hp]

theorem peakCount_short (samples : List Int) (threshold : Int) (h : samples.length < 3) :
    peakCount samples threshold = 0 := by
  unfold peakCount
  have : Finset.Icc 1 (samples.length - 2) = ∅ := by
    ext x; simp only [Finset.mem_Icc, Finset.not_mem_empty, iff_false]; omega
  rw [this]; simp

/-- The result of `detectSoundPattern` on a whole window, for every baseline: two or more
interior strict local maxima above the wrapped threshold. -/
theorem detectSoundPattern_eq (samples : List Int) (baseline : Int) :
    detectSoundPattern samples samples.length baseline
      = .ok (decide (2 ≤ peakCount samples (wrapInt (baseline + 75)))) := by
  unfold detectSoundPattern
  by_cases hN : (samples.length : Int) < 3
  · rw [if_pos hN, peakCount_short _ _ (by omega)]; simp
  · rw [if_neg hN]
    have h75 : Int.tdiv DETECTION_SENSITIVITY 2 = 75 := by decide
    simp only [h75]
    rw [spikeLoop_eq _ _ hN]
    simp

theorem getD_reverse (l : List Int) (i : Nat) (h : i < l.length) :
    l.reverse.getD i 0 = l.getD (l.length - 1 - i) 0 := by
  rw [List.getD_eq_getElem?_getD, List.getD_eq_getElem?_getD, List.getElem?_reverse h]

theorem isLocalMaxAbove_reverse (samples : List Int) (threshold : Int) (i : Nat) (h1 : 1 ≤ i)
    (h2 : i + 1 < samples.length) :
    IsLocalMaxAbove samples.reverse threshold i
      ↔ IsLocalMaxAbove samples threshold (samples.length - 1 - i) := by
  unfold IsLocalMaxAbove
  rw [getD_reverse _ i (by omega), getD_reverse _ (i - 1) (by omega),
    getD_reverse _ (i + 1) (by omega)]
  have e1 : samples.length - 1 - (i - 1) = samples.length - 1 - i + 1 := by omega
  have e2 : samples.length - 1 - (i + 1) = samples.length - 1 - i - 1 := by omega
  rw [e1, e2]
  tauto

/-- Reversing the window maps index `i` to `N - 1 - i` and keeps the number of peaks. -/
theorem peakCount_reverse (samples : List Int) (threshold : Int) :
    peakCount samples.reverse threshold = peakCount samples threshold := by
  unfold peakCount
  rw [List.length_reverse]
  refine Finset.card_nbij' (fun i => samples.length - 1 - i) (fun i => samples.length - 1 - i)
    ?_ ?_ ?_ ?_
  · intro i hi
    rw [Finset.mem_filter, Finset.mem_Icc] at hi ⊢
    beta_reduce
    refine ⟨by omega, ?_⟩
    exact (isLocalMaxAbove_reverse samples threshold i (by omega) (by omega)).1 hi.2
  · intro i hi
    rw [Finset.mem_filter, Finset.mem_Icc] at hi ⊢
    beta_reduce
    refine ⟨by omega, ?_⟩
    refine (isLocalMaxAbove_reverse samples threshold _ (by omega) (by omega)).2 ?_
    have e : samples.length - 1 - (samples.length - 1 - i) = i := by omega
    rw [e]
    exact hi.2
  · intro i hi
    rw [Finset.mem_filter, Finset.mem_Icc] at hi
    show samples.length - 1 - (samples.length - 1 - i) = i
    omega
  · intro i hi
    rw [Finset.mem_filter, Finset.mem_Icc] at hi
    show samples.length - 1 - (samples.length - 1 - i) = i
    omega

/-! ## `analyzeHelpSyllables` -/

theorem syllableStep_ok (samples : List Int) (threshold : Int) (i : Nat) (st : SyllableState)
    (h : i < samples.length) :
    syllableStep samples threshold i st = .ok (syllableNext threshold (samples.getD i 0) st) := by
  unfold syllableStep syllableNext
  rw [readSample_ok _ _ h]
  simp only []
  split_ifs <;> rfl

/-- Loop invariant of `analyzeHelpSyllables` after `n` samples: `inSyllable` tells whether the
last sample read was above the threshold, and `syllableCount` is the number of run starts
so far. -/
theorem syllable_invariant (samples : List Int) (threshold : Int) (n : Nat) :
    ((List.range' 0 n).foldl (fun t j => syllableNext threshold (samples.getD j 0) t)
        { inSyllable := false, syllableCount := 0, syllableLength := 0, gapLength := 0 }).inSyllable
        = decide (0 < n ∧ samples.getD (n - 1) 0 > threshold) ∧
    ((List.range' 0 n).foldl (fun t j => syllableNext threshold (samples.getD j 0) t)
        { inSyllable := false, syllableCount := 0, syllableLength := 0, gapLength := 0 }).syllableCount
        = (((Finset.range n).filter (IsRunStart samples threshold)).card : Int) := by
  induction n with
  | zero => simp
  | succ n ih =>
    rw [foldl_range'_succ_last (fun j t => syllableNext threshold (samples.getD j 0) t)]
    obtain ⟨ih1, ih2⟩ := ih
    generalize (List.range' 0 n).foldl (fun t j => syllableNext threshold (samples.getD j 0) t)
      { inSyllable := false, syllableCount := 0, syllableLength := 0, gapLength := 0 } = st at ih1 ih2
    rw [card_filter_range_succ]
    have hrs : IsRunStart samples threshold n ↔
        (samples.getD n 0 > threshold ∧ st.inSyllable = false) := by
      unfold IsRunStart
      rw [ih1]
      simp only [decide_eq_false_iff_not, not_and, not_lt]
      constructor
      · rintro ⟨h1, h2⟩
        refine ⟨h1, fun h0 => ?_⟩
        rcases h2 with h2 | h2
        · omega
        · exact h2
      · rintro ⟨h1, h2⟩
        refine ⟨h1, ?_⟩
        by_cases h0 : n = 0
        · exact Or.inl h0
        · exact Or.inr (h2 (by omega))
    unfold syllableNext
    by_cases ha : samples.getD n 0 > threshold
    · cases hb : st.inSyllable
      · have : IsRunStart samples threshold n := hrs.2 ⟨ha, hb⟩
        simp [ha, hb, this, ih2, -List.getD_eq_getElem?_getD]
      · have : ¬ IsRunStart samples threshold n := fun h => by
          have := (hrs.1 h).2; rw [hb] at this; exact absurd this (by simp)
        simp [ha, hb, this, ih2, -List.getD_eq_getElem?_getD]
    · have : ¬ IsRunStart samples threshold n := fun h => ha (hrs.1 h).1
      cases hb : st.inSyllable <;>
        simp [ha, hb, this, ih2, -List.getD_eq_getElem?_getD]

/-- The result of `analyzeHelpSyllables` on a whole window, for every baseline: two or three
runs above the wrapped threshold. -/
theorem analyzeHelpSyllables_eq (samples : List Int) (baseline : Int) :
    analyzeHelpSyllables samples samples.length baseline
      = .ok (decide (runCount samples (wrapInt (baseline + 100)) = 2 ∨
          runCount samples (wrapInt (baseline + 100)) = 3)) := by
  unfold analyzeHelpSyllables forRange
  have hn : ((samples.length : Int) - ((0 : Nat) : Int)).toNat = samples.length := by omega
  simp only []
  rw [hn, forLoop_ok _ (fun j t => syllableNext
    (wrapInt (baseline + VOICE_SENSITIVITY_THRESHOLD)) (samples.getD j 0) t)]
  · simp only []
    rw [(syllable_invariant samples _ samples.length).2]
    unfold runCount VOICE_SENSITIVITY_THRESHOLD
    congr 1
    rw [decide_eq_decide]
    omega
  · intro j _ hj t
    exact syllableStep_ok _ _ _ _ (by omega)

theorem runCount_eq_zero (samples : List Int) (threshold : Int)
    (h : ∀ x ∈ samples, x ≤ threshold) : runCount samples threshold = 0 := by
  unfold runCount
  rw [Finset.card_eq_zero, Finset.filter_eq_empty_iff]
  intro i hi hrs
  have hi' : i < samples.length := Finset.mem_range.1 hi
  have hx := h (samples.getD i 0) (by
    rw [List.getD_eq_getElem?_getD, List.getElem?_eq_getElem hi']
    exact List.getElem_mem hi')
  exact absurd hrs.1 (not_lt.2 hx)

/-! ## `getSoundTrend` -/

theorem trendStep_ok (samples : List Int) (i : Nat) (st : Int × Int) (h1 : 1 ≤ i)
    (h2 : i < samples.length) :
    trendStep samples i st
      = .ok ((if samples.getD i 0 > samples.getD (i - 1) 0 then st.1 + 1 else st.1),
          (if samples.getD i 0 < samples.getD (i - 1) 0 then st.2 + 1 else st.2)) := by
  unfold trendStep
  rw [readSample_ok _ _ h2, readSample_pred _ _ h1 (by omega)]

/-- The result of `getSoundTrend` on a whole window. -/
theorem getSoundTrend_eq (samples : List Int) :
    getSoundTrend samples samples.length
      = .ok (if risingPairs samples > fallingPairs samples then 1
          else if risingPairs samples < fallingPairs samples then -1 else 0) := by
  unfold getSoundTrend
  by_cases hN : (samples.length : Int) < 2
  · have h0 : Finset.Ico 1 samples.length = ∅ := by
      ext x; simp only [Finset.mem_Ico, Finset.not_mem_empty, iff_false]; omega
    rw [if_pos hN]
    simp [risingPairs, fallingPairs, h0]
  · rw [if_neg hN]
    have hn : ((samples.length : Int) - ((1 : Nat) : Int)).toNat = samples.length - 1 := by omega
    unfold forRange
    rw [hn, forLoop_ok _ (fun j (t : Int × Int) =>
      ((if samples.getD j 0 > samples.getD (j - 1) 0 then t.1 + 1 else t.1),
        (if samples.getD j 0 < samples.getD (j - 1) 0 then t.2 + 1 else t.2)))]
    · rw [foldl_count_pair (fun j => samples.getD j 0 > samples.getD (j - 1) 0)
        (fun j => samples.getD j 0 < samples.getD (j - 1) 0), countP_range', countP_range']
      have : 1 + (samples.length - 1) = samples.length := by omega
      rw [this]
      simp only [zero_add]
      unfold risingPairs fallingPairs
      split_ifs <;> first | rfl | omega
    · intro j hj1 hj2 t
      exact trendStep_ok _ _ _ hj1 (by omega)

theorem getD_succ_of_chain (samples : List Int) (hinc : List.Chain' (· < ·) samples) (i : Nat)
    (h1 : 1 ≤ i) (h2 : i < samples.length) : samples.getD (i - 1) 0 < samples.getD i 0 := by
  have := List.chain'_iff_get.1 hinc (i - 1) (by omega)
  simp only [List.get_eq_getElem] at this
  have e : i - 1 + 1 = i := by omega
  rw [List.getD_eq_getElem?_getD, List.getD_eq_getElem?_getD,
    List.getElem?_eq_getElem (by omega : i - 1 < samples.length), List.getElem?_eq_getElem h2]
  simpa [e] using this

/-! ## `detectVoicePattern` -/

theorem voiceStep_ok (samples : List Int) (threshold : Int) (i : Nat) (st : Int × Int)
    (h : i < samples.length) :
    voiceStep samples samples.length threshold i st
      = .ok ((if samples.getD i 0 > threshold then st.1 + 1 else st.1),
          (if 1 ≤ i ∧ i + 2 ≤ samples.length ∧ IsLocalMaxAbove samples threshold i
            then st.2 + 1 else st.2)) := by
  unfold voiceStep
  rw [readSample_ok _ _ h]
  simp only
  by_cases hi : (i : Int) > 0 ∧ (i : Int) < (samples.length : Int) - 1
  · rw [if_pos hi, localMaxAbove_ok _ _ _ (by omega) (by omega)]
    by_cases hp : IsLocalMaxAbove samples threshold i
    · have : 1 ≤ i ∧ i + 2 ≤ samples.length ∧ IsLocalMaxAbove samples threshold i :=
        ⟨by omega, by omega, hp⟩
      simp [hp, this, -List.getD_eq_getElem?_getD]
    · have : ¬ (1 ≤ i ∧ i + 2 ≤ samples.length ∧ IsLocalMaxAbove samples threshold i) :=
        fun h => hp h.2.2
      simp [hp, this, -List.getD_eq_getElem?_getD]
  · have : ¬ (1 ≤ i ∧ i + 2 ≤ samples.length ∧ IsLocalMaxAbove samples threshold i) :=
      fun h => hi ⟨by omega, by omega⟩
    rw [if_neg hi, if_neg this]

/-- The loop of `detectVoicePattern` over a whole window counts the active samples and the
interior peaks. -/
theorem voiceLoop_eq (samples : List Int) (threshold : Int) :
    forRange 0 (samples.length : Int) (voiceStep samples samples.length threshold) (0, 0)
      = .ok ((activeCount samples threshold : Int), (peakCount samples threshold : Int)) := by
  have hn : ((samples.length : Int) - ((0 : Nat) : Int)).toNat = samples.length := by omega
  unfold forRange
  rw [hn, forLoop_ok _ (fun j (t : Int × Int) =>
    ((if samples.getD j 0 > threshold then t.1 + 1 else t.1),
      (if 1 ≤ j ∧ j + 2 ≤ samples.length ∧ IsLocalMaxAbove samples threshold j
        then t.2 + 1 else t.2)))]
  · rw [foldl_count_pair (fun j => samples.getD j 0 > threshold)
      (fun j => 1 ≤ j ∧ j + 2 ≤ samples.length ∧ IsLocalMaxAbove samples threshold j),
      countP_range', countP_range']
    simp only [zero_add]
    have e1 : Finset.Ico 0 samples.length = Finset.range samples.length := by
      ext x; simp
    have e2 : (Finset.Ico 0 samples.length).filter
        (fun j => 1 ≤ j ∧ j + 2 ≤ samples.length ∧ IsLocalMaxAbove samples threshold j)
        = (Finset.Icc 1 (samples.length - 2)).filter (IsLocalMaxAbove samples threshold) := by
      ext x
      simp only [Finset.mem_filter, Finset.mem_Ico, Finset.mem_Icc]
      constructor
      · rintro ⟨_, h1, h2, h3⟩
        exact ⟨⟨h1, by omega⟩, h3⟩
      · rintro ⟨⟨h1, h2⟩, h3⟩
        exact ⟨⟨by omega, by omega⟩, h1, by omega, h3⟩
    rw [e2, e1]
    rfl
  · intro j _ hj t
    exact voiceStep_ok _ _ _ _ (by omega)

/-- The loop of `calculateVoiceConfidence` over a whole window counts the active samples. -/
theorem activeLoop_eq (samples : List Int) (threshold : Int) :
    forRange 0 (samples.length : Int) (activeStep samples threshold) 0
      = .ok (activeCount samples threshold : Int) := by
  have hn : ((samples.length : Int) - ((0 : Nat) : Int)).toNat = samples.length := by omega
  unfold forRange
  rw [hn, forLoop_ok _ (fun j (t : Int) => if samples.getD j 0 > threshold then t + 1 else t)]
  · rw [foldl_count (fun j => samples.getD j 0 > threshold), countP_range']
    simp only [zero_add]
    have e1 : Finset.Ico 0 samples.length = Finset.range samples.length := by
      ext x; simp
    rw [e1]
    rfl
  · intro j _ hj t
    unfold activeStep
    rw [readSample_ok _ _ (by omega)]

theorem fdiv32_length (samples : List Int) (threshold : Int) (h : ¬ ((samples.length : Int) < 5)) :
    fdiv32 (f32 ((activeCount samples threshold : Int) : ℚ)) (f32 ((samples.length : Int) : ℚ))
      = .ok (activeRatio samples threshold) := by
  unfold fdiv32 fdivWith
  rw [if_neg]
  · simp [activeRatio]
  · apply f32_ne_zero
    have : (5 : ℚ) ≤ ((samples.length : Int) : ℚ) := by
      have : (5 : Int) ≤ (samples.length : Int) := by omega
      exact_mod_cast this
    linarith

/-- The result of `detectVoicePattern` on a whole window, for every baseline, in terms of
the `float` ratio and the `double` bounds it is compared with. -/
theorem detectVoicePattern_eq (samples : List Int) (baseline : Int) :
    detectVoicePattern samples samples.length baseline
      = .ok (decide (5 ≤ samples.length ∧
          activeRatio samples (wrapInt (baseline + 100)) > f64 (3 / 10) ∧
          activeRatio samples (wrapInt (baseline + 100)) < f64 (8 / 10) ∧
          2 ≤ peakCount samples (wrapInt (baseline + 100)))) := by
  unfold detectVoicePattern
  by_cases hN : (samples.length : Int) < 5
  · rw [if_pos hN]
    have : ¬ (5 ≤ samples.length) := by omega
    simp [this]
  · rw [if_neg hN]
    have h5 : 5 ≤ samples.length := by omega
    simp only [VOICE_SENSITIVITY_THRESHOLD]
    rw [voiceLoop_eq]
    simp only
    rw [fdiv32_length _ _ hN]
    simp [h5]

theorem activeCount_le_length (samples : List Int) (threshold : Int) :
    activeCount samples threshold ≤ samples.length := by
  unfold activeCount
  calc ((Finset.range samples.length).filter _).card ≤ (Finset.range samples.length).card :=
        Finset.card_filter_le _ _
    _ = samples.length := Finset.card_range _

theorem activeRatio_eq (samples : List Int) (threshold : Int) (h : samples.length ≤ 4194304) :
    activeRatio samples threshold
      = f32 ((activeCount samples threshold : ℚ) / (samples.length : ℚ)) := by
  unfold activeRatio
  have ha := activeCount_le_length samples threshold
  rw [f32_natCast _ (by omega), f32_natCast _ (by omega)]

/-- For at most `2^22` samples the `float` ratio exceeds the `double` `0.3` exactly when the
exact ratio is at least `3/10`: the `float` nearest to `0.3` lies above the `double` `0.3`. -/
theorem ratio_gt_three_tenths (a n : ℕ) (hn : 0 < n) (hb : n ≤ 4194304) :
    f32 ((a : ℚ) / n) > f64 (3 / 10) ↔ (3 : ℚ) / 10 ≤ (a : ℚ) / n := by
  have hn' : (0 : ℚ) < n := by exact_mod_cast hn
  have hb' : (n : ℚ) ≤ 4194304 := by exact_mod_cast hb
  constructor
  · intro h
    by_contra hlt
    push_neg at hlt
    rw [div_lt_iff₀ hn'] at hlt
    have h1 : 10 * a < 3 * n := by
      have : (10 : ℚ) * a < 3 * n := by linarith
      exact_mod_cast this
    have h2 : (10 : ℚ) * a + 1 ≤ 3 * n := by exact_mod_cast h1
    have h3 : (a : ℚ) / n ≤ 12582911 / 41943040 := by
      rw [div_le_iff₀ hn']
      linarith
    have h4 := f32_mono h3
    rw [f32_below_three_tenths] at h4
    rw [f64_three_tenths] at h
    have : f32 ((a : ℚ) / n) < 5404319552844595 / 18014398509481984 :=
      lt_of_le_of_lt h4 (by norm_num)
    linarith
  · intro h
    have h4 := f32_mono h
    rw [f32_three_tenths] at h4
    rw [f64_three_tenths]
    exact lt_of_lt_of_le (by norm_num) h4

/-- For at most `2^22` samples the `float` ratio is at least the `double` `0.3` exactly when
the exact ratio is at least `3/10`. -/
theorem ratio_ge_three_tenths (a n : ℕ) (hn : 0 < n) (hb : n ≤ 4194304) :
    f32 ((a : ℚ) / n) ≥ f64 (3 / 10) ↔ (3 : ℚ) / 10 ≤ (a : ℚ) / n := by
  constructor
  · intro h
    by_contra hlt
    have h1 : ¬ f32 ((a : ℚ) / n) > f64 (3 / 10) :=
      fun hgt => hlt ((ratio_gt_three_tenths a n hn hb).1 hgt)
    have h2 : f32 ((a : ℚ) / n) = f64 (3 / 10) := le_antisymm (not_lt.1 h1) h
    push_neg at hlt
    have hn' : (0 : ℚ) < n := by exact_mod_cast hn
    have hb' : (n : ℚ) ≤ 4194304 := by exact_mod_cast hb
    rw [div_lt_iff₀ hn'] at hlt
    have h3 : 10 * a < 3 * n := by
      have : (10 : ℚ) * a < 3 * n := by linarith
      exact_mod_cast this
    have h4 : (10 : ℚ) * a + 1 ≤ 3 * n := by exact_mod_cast h3
    have h5 : (a : ℚ) / n ≤ 12582911 / 41943040 := by
      rw [div_le_iff₀ hn']
      linarith
    have h6 := f32_mono h5
    rw [f32_below_three_tenths, h2, f64_three_tenths] at h6
    norm_num at h6
  · intro h
    exact le_of_lt ((ratio_gt_three_tenths a n hn hb).2 h)

/-- For at most `2^22` samples the `float` ratio is below the `double` `0.8` exactly when
the exact ratio is below `8/10`. -/
theorem ratio_lt_eight_tenths (a n : ℕ) (hn : 0 < n) (hb : n ≤ 4194304) :
    f32 ((a : ℚ) / n) < f64 (8 / 10) ↔ (a : ℚ) / n < 8 / 10 := by
  have hn' : (0 : ℚ) < n := by exact_mod_cast hn
  have hb' : (n : ℚ) ≤ 4194304 := by exact_mod_cast hb
  have e : f64 (8 / 10) = 3602879701896397 / 4503599627370496 := by
    have := f64_eight_tenths
    norm_num at this ⊢
    exact this
  constructor
  · intro h
    by_contra hge
    push_neg at hge
    have h0 : (4 : ℚ) / 5 ≤ (a : ℚ) / n := by linarith
    have h4 := f32_mono h0
    rw [f32_eight_tenths] at h4
    rw [e] at h
    have : (3602879701896397 : ℚ) / 4503599627370496 < 13421773 / 16777216 := by norm_num
    linarith
  · intro h
    rw [div_lt_iff₀ hn'] at h
    have h1 : 5 * a < 4 * n := by
      have : (5 : ℚ) * a < 4 * n := by linarith
      exact_mod_cast this
    have h2 : (5 : ℚ) * a + 1 ≤ 4 * n := by exact_mod_cast h1
    have h3 : (a : ℚ) / n ≤ 3355443 / 4194304 := by
      rw [div_le_iff₀ hn']
      linarith
    have h4 := f32_mono h3
    rw [f32_below_eight_tenths] at h4
    rw [e]
    exact lt_of_le_of_lt h4 (by norm_num)

/-- For at most `2^22` samples the `float` ratio is at most the `double` `0.7` exactly when
the exact ratio is at most `7/10`. -/
theorem ratio_le_seven_tenths (a n : ℕ) (hn : 0 < n) (hb : n ≤ 4194304) :
    f32 ((a : ℚ) / n) ≤ f64 (7 / 10) ↔ (a : ℚ) / n ≤ 7 / 10 := by
  have hn' : (0 : ℚ) < n := by exact_mod_cast hn
  have hb' : (n : ℚ) ≤ 4194304 := by exact_mod_cast hb
  constructor
  · intro h
    by_contra hgt
    push_neg at hgt
    rw [lt_div_iff₀ hn'] at hgt
    have h1 : 7 * n < 10 * a := by
      have : (7 : ℚ) * n < 10 * a := by linarith
      exact_mod_cast this
    have h2 : (7 : ℚ) * n + 1 ≤ 10 * a := by exact_mod_cast h1
    have h3 : (29360129 : ℚ) / 41943040 ≤ (a : ℚ) / n := by
      rw [le_div_iff₀ hn']
      linarith
    have h4 := f32_mono h3
    rw [f32_above_seven_tenths] at h4
    rw [f64_seven_tenths] at h
    have : (3152519739159347 : ℚ) / 4503599627370496 < 2936013 / 4194304 := by norm_num
    linarith
  · intro h
    have h4 := f32_mono h
    rw [f32_seven_tenths] at h4
    rw [f64_seven_tenths]
    exact le_trans h4 (by norm_num)

/-- The result of `detectVoicePattern` in exact terms, for windows of at most `2^22` samples
and a threshold that does not overflow: the lower bound `0.3` is included, the upper bound
`0.8` is not. -/
theorem detectVoicePattern_bounded (samples : List Int) (baseline : Int)
    (hN : samples.length ≤ 4194304) (hlo : INT_MIN ≤ baseline + 100)
    (hhi : baseline + 100 ≤ INT_MAX) :
    detectVoicePattern samples samples.length baseline
      = .ok (decide (5 ≤ samples.length ∧
          (3 : ℚ) / 10 ≤ (activeCount samples (baseline + 100) : ℚ) / (samples.length : ℚ) ∧
          (activeCount samples (baseline + 100) : ℚ) / (samples.length : ℚ) < 8 / 10 ∧
          2 ≤ peakCount samples (baseline + 100))) := by
  rw [detectVoicePattern_eq, wrapInt_eq _ hlo hhi]
  congr 1
  rw [decide_eq_decide]
  constructor
  · rintro ⟨h5, h1, h2, h3⟩
    rw [activeRatio_eq _ _ hN] at h1 h2
    exact ⟨h5, (ratio_gt_three_tenths _ _ (by omega) hN).1 h1,
      (ratio_lt_eight_tenths _ _ (by omega) hN).1 h2, h3⟩
  · rintro ⟨h5, h1, h2, h3⟩
    rw [activeRatio_eq _ _ hN]
    exact ⟨h5, (ratio_gt_three_tenths _ _ (by omega) hN).2 h1,
      (ratio_lt_eight_tenths _ _ (by omega) hN).2 h2, h3⟩

/-! ## `calculateVoiceConfidence` -/

/-- The `float` additions of `calculateVoiceConfidence` evaluated: whichever terms are
earned, the result is one of the four values of `confidenceValue`. -/
theorem confidence_chain (syllables inRange : Bool) :
    f32 (cmin
      (if inRange then
        f32 (f64 (f32 (f64 ((if syllables then f32 (f64 (f32 (f64 0) + f64 (4 / 10)))
          else f32 (f64 0)) + f64 (3 / 10))) + f64 (3 / 10)))
      else f32 (f64 ((if syllables then f32 (f64 (f32 (f64 0) + f64 (4 / 10)))
          else f32 (f64 0)) + f64 (3 / 10))))
      (f64 1)) = confidenceValue syllables inRange := by
  have z64 : f64 0 = 0 := roundTo_zero 53
  have z32 : f32 0 = 0 := roundTo_zero 24
  cases syllables <;> cases inRange <;>
    simp only [z64, z32, zero_add, f64_three_tenths, f64_four_tenths, f64_one, if_true,
      if_false, Bool.false_eq_true, f64_dbl_four_tenths, f32_dbl_four_tenths,
      f64_dbl_three_tenths, f32_dbl_three_tenths, confidenceValue, cmin]
  · norm_num [f32_flt_three_tenths]
  · norm_num [f64_sum_03_03, f32_sum_03_03, f32_flt_six_tenths]
  · norm_num [f64_four_tenths, f64_dbl_four_tenths, f32_dbl_four_tenths, f64_sum_04_03,
      f32_sum_04_03, f32_flt_seven_tenths]
  · norm_num [f64_four_tenths, f64_dbl_four_tenths, f32_dbl_four_tenths, f64_sum_04_03,
      f32_sum_04_03, f64_sum_07_03, f32_sum_07_03, f32_one]

/-- The result of `calculateVoiceConfidence` on a whole window, for every baseline. -/
theorem calculateVoiceConfidence_eq (samples : List Int) (baseline : Int) :
    calculateVoiceConfidence samples samples.length baseline
      = .ok (if (5 ≤ samples.length ∧
            activeRatio samples (wrapInt (baseline + 100)) > f64 (3 / 10) ∧
            activeRatio samples (wrapInt (baseline + 100)) < f64 (8 / 10) ∧
            2 ≤ peakCount samples (wrapInt (baseline + 100)))
          then confidenceValue
            (decide (runCount samples (wrapInt (baseline + 100)) = 2 ∨
              runCount samples (wrapInt (baseline + 100)) = 3))
            (decide (activeRatio samples (wrapInt (baseline + 100)) ≥ f64 (3 / 10) ∧
              activeRatio samples (wrapInt (baseline + 100)) ≤ f64 (7 / 10)))
          else 0) := by
  unfold calculateVoiceConfidence
  rw [detectVoicePattern_eq]
  by_cases hv : (5 ≤ samples.length ∧
      activeRatio samples (wrapInt (baseline + 100)) > f64 (3 / 10) ∧
      activeRatio samples (wrapInt (baseline + 100)) < f64 (8 / 10) ∧
      2 ≤ peakCount samples (wrapInt (baseline + 100)))
  · rw [if_pos hv, decide_eq_true hv]
    simp only
    rw [analyzeHelpSyllables_eq]
    simp only [VOICE_SENSITIVITY_THRESHOLD]
    rw [activeLoop_eq]
    simp only
    rw [fdiv32_length _ _ (by omega)]
    simp only
    rw [← confidence_chain]
    simp
  · rw [if_neg hv, decide_eq_false hv]
    simp [f32, f64, roundTo_zero]

/-! ## `calculateAnomalyScore` -/

theorem fdivWith_ok (r32 : ℚ → ℚ) (x y : ℚ) (hy : y ≠ 0) :
    fdivWith r32 x y = .ok (r32 (x / y)) := by
  unfold fdivWith
  rw [if_neg hy]

/-- The variance loop in exact arithmetic sums the squared wrapped differences. -/
theorem varianceLoop_exact (samples : List Int) (baseline : Int) :
    forRange 0 (samples.length : Int) (varianceStepWith id samples baseline) (id 0)
      = .ok (∑ i in Finset.range samples.length,
          ((wrapInt (samples.getD i 0 - baseline) : Int) : ℚ) ^ 2) := by
  have hn : ((samples.length : Int) - ((0 : Nat) : Int)).toNat = samples.length := by omega
  unfold forRange
  rw [hn, forLoop_ok _ (fun j (t : ℚ) =>
    t + ((wrapInt (samples.getD j 0 - baseline) : Int) : ℚ) ^ 2)]
  · rw [foldl_range'_sum]
    simp
  · intro j _ hj t
    have hj' : j < samples.length := by omega
    unfold varianceStepWith
    rw [readSample_ok _ _ hj']
    simp only [id]
    congr 1
    ring

/-- The value of `calculateAnomalyScore` in exact arithmetic, with the wrap-around of the
`int` subtractions kept. -/
theorem calculateAnomalyScoreExact_wrap (currentLevel baseline : Int)
    (recentSamples : List Int) (hne : recentSamples ≠ []) :
    calculateAnomalyScoreExact currentLevel baseline recentSamples recentSamples.length
      = .ok (4 / 10 * ((wrapInt (currentLevel - baseline) : Int) : ℚ) / 150
          + 3 / 10 * ((∑ i in Finset.range recentSamples.length,
              ((wrapInt (recentSamples.getD i 0 - baseline) : Int) : ℚ) ^ 2)
              / (recentSamples.length : ℚ)) / 150 ^ 2
          + (if detectSoundPattern recentSamples recentSamples.length baseline = .ok true
              then 3 / 10 else 0)) := by
  have hlen : (recentSamples.length : ℚ) ≠ 0 := by
    have : recentSamples.length ≠ 0 := fun h => hne (List.length_eq_zero.1 h)
    exact_mod_cast this
  have h150 : wrapInt (DETECTION_SENSITIVITY * DETECTION_SENSITIVITY) = 22500 := by decide
  unfold calculateAnomalyScoreExact calculateAnomalyScoreWith
  rw [varianceLoop_exact, h150]
  simp only [id, DETECTION_SENSITIVITY]
  rw [fdivWith_ok _ _ _ (by norm_num)]
  simp only []
  rw [fdivWith_ok _ _ _ (by exact_mod_cast hlen)]
  simp only []
  rw [fdivWith_ok _ _ _ (by norm_num), detectSoundPattern_eq]
  by_cases hp : 2 ≤ peakCount recentSamples (wrapInt (baseline + 75))
  · rw [decide_eq_true hp, if_pos rfl]
    simp only [id]
    congr 1
    push_cast
    ring
  · rw [decide_eq_false hp, if_neg (by decide)]
    simp only [id]
    congr 1
    push_cast
    ring

/-- The variance loop in `float` arithmetic never faults on a whole window. -/
theorem varianceLoop32 (samples : List Int) (baseline : Int) :
    forRange 0 (samples.length : Int) (varianceStepWith f32 samples baseline) (f32 0)
      = .ok (varianceSum32 samples baseline) := by
  have hn : ((samples.length : Int) - ((0 : Nat) : Int)).toNat = samples.length := by omega
  have z32 : f32 0 = 0 := roundTo_zero 24
  unfold forRange
  rw [hn, z32, forLoop_ok _ (fun j (t : ℚ) =>
    f32 (t + f32 (f32 (wrapInt (samples.getD j 0 - baseline))
      * f32 (wrapInt (samples.getD j 0 - baseline)))))]
  · rfl
  · intro j _ hj t
    unfold varianceStepWith
    rw [readSample_ok _ _ (by omega)]

/-- The value `calculateAnomalyScore` returns on a non-empty window, operation by
operation. -/
theorem calculateAnomalyScore_eq (currentLevel baseline : Int) (recentSamples : List Int)
    (hne : recentSamples ≠ []) :
    calculateAnomalyScore currentLevel baseline recentSamples recentSamples.length
      = .ok (if 2 ≤ peakCount recentSamples (wrapInt (baseline + 75))
          then f32 (f64 (varianceScore32 currentLevel baseline recentSamples + f64 (3 / 10)))
          else varianceScore32 currentLevel baseline recentSamples) := by
  have hlen : f32 (((recentSamples.length : Int) : ℚ)) ≠ 0 := by
    apply f32_ne_zero
    have : recentSamples.length ≠ 0 := fun h => hne (List.length_eq_zero.1 h)
    exact_mod_cast this
  have hsq : wrapInt (DETECTION_SENSITIVITY * DETECTION_SENSITIVITY) = 22500 := by decide
  have z64 : f64 0 = 0 := roundTo_zero 53
  have z32 : f32 0 = 0 := roundTo_zero 24
  have h150 : f32 ((DETECTION_SENSITIVITY : Int) : ℚ) = 150 := by
    have := f32_sensitivity
    unfold DETECTION_SENSITIVITY
    norm_num at this ⊢
    exact this
  have h22500 : f32 ((22500 : Int) : ℚ) = 22500 := by
    have := f32_sensitivity_sq
    norm_num at this ⊢
    exact this
  unfold calculateAnomalyScore calculateAnomalyScoreWith
  rw [varianceLoop32, hsq, detectSoundPattern_eq, h150, h22500, z64, z32,
    fdivWith_ok _ _ _ (by norm_num)]
  simp only []
  rw [fdivWith_ok _ _ _ (by exact_mod_cast hlen)]
  simp only []
  rw [fdivWith_ok _ _ _ (by norm_num)]
  simp only []
  have hcast : ((recentSamples.length : Int) : ℚ) = (recentSamples.length : ℚ) := by
    push_cast
    rfl
  by_cases hp : 2 ≤ peakCount recentSamples (wrapInt (baseline + 75))
  · rw [decide_eq_true hp, if_pos hp]
    simp only [varianceScore32, levelScore32, hcast, z32]
  · rw [decide_eq_false hp, if_neg hp]
    simp only [varianceScore32, levelScore32, hcast, z32]

/-- The level term is computed with at most six roundings. -/
theorem levelScore32_err (currentLevel baseline : Int)
    (hc : INT_MIN ≤ currentLevel - baseline ∧ currentLevel - baseline ≤ INT_MAX) :
    ErrWithin 6 (levelScore32 currentLevel baseline)
      (4 / 10 * ((currentLevel - baseline : Int) : ℚ) / 150)
      |4 / 10 * ((currentLevel - baseline : Int) : ℚ) / 150| := by
  unfold levelScore32
  rw [wrapInt_eq _ hc.1 hc.2, zero_add]
  have h1 := errWithin_f32 (errWithin_exact ((currentLevel - baseline : Int) : ℚ))
  have h2 := errWithin_f32 (errWithin_div h1 150 (by norm_num))
  have h3 := errWithin_mul h2 (errWithin_const (4 / 10))
  have h4 := errWithin_f32 (errWithin_f64 (errWithin_f64 h3))
  refine errWithin_congr h4 (by ring) ?_
  have e : (4 : ℚ) / 10 * ((currentLevel - baseline : Int) : ℚ) / 150
      = 4 / 10 / 150 * ((currentLevel - baseline : Int) : ℚ) := by ring
  rw [e, abs_mul, abs_of_pos (by norm_num : (0 : ℚ) < 4 / 10),
    abs_of_pos (by norm_num : (0 : ℚ) < 4 / 10 / 150)]
  ring

/-- The sum of squares over the first `n` samples is computed with at most `n + 3`
roundings. -/
theorem varianceSum32_err (samples : List Int) (baseline : Int)
    (hs : ∀ s ∈ samples, INT_MIN ≤ s - baseline ∧ s - baseline ≤ INT_MAX) (n : Nat)
    (hn : n ≤ samples.length) :
    ErrWithin (n + 3)
      ((List.range' 0 n).foldl
        (fun t j => f32 (t + f32 (f32 (wrapInt (samples.getD j 0 - baseline))
          * f32 (wrapInt (samples.getD j 0 - baseline))))) 0)
      (∑ i in Finset.range n, ((samples.getD i 0 - baseline : Int) : ℚ) ^ 2)
      (∑ i in Finset.range n, ((samples.getD i 0 - baseline : Int) : ℚ) ^ 2) := by
  induction n with
  | zero =>
    unfold ErrWithin
    simp
  | succ n ih =>
    have ih' := ih (by omega)
    have hb := hs _ (getD_mem samples n (by omega))
    rw [foldl_range'_succ_last (fun j t => f32 (t + f32 (f32 (wrapInt (samples.getD j 0 - baseline))
      * f32 (wrapInt (samples.getD j 0 - baseline))))), Finset.sum_range_succ,
      wrapInt_eq _ hb.1 hb.2]
    have h1 := errWithin_f32 (errWithin_exact ((samples.getD n 0 - baseline : Int) : ℚ))
    have h2 := errWithin_f32 (errWithin_mul h1 h1)
    have h3 : ErrWithin (n + 3)
        (f32 (f32 ((samples.getD n 0 - baseline : Int) : ℚ)
          * f32 ((samples.getD n 0 - baseline : Int) : ℚ)))
        (((samples.getD n 0 - baseline : Int) : ℚ) ^ 2)
        (((samples.getD n 0 - baseline : Int) : ℚ) ^ 2) := by
      refine errWithin_congr (errWithin_mono h2 (by omega)) (by ring) ?_
      rw [← abs_mul, ← pow_two, abs_of_nonneg (sq_nonneg _)]
    exact errWithin_f32 (errWithin_add ih' h3)

theorem sum_sq_nonneg (samples : List Int) (baseline : Int) :
    0 ≤ ∑ i in Finset.range samples.length, ((samples.getD i 0 - baseline : Int) : ℚ) ^ 2 :=
  Finset.sum_nonneg (fun _ _ => sq_nonneg _)

theorem meanSquaredDeviation_nonneg (samples : List Int) (baseline : Int) :
    0 ≤ meanSquaredDeviation samples baseline := by
  unfold meanSquaredDeviation
  exact div_nonneg (sum_sq_nonneg samples baseline) (Nat.cast_nonneg _)

/-- The score after the variance term is computed with at most `N + 9` roundings. -/
theorem varianceScore32_err (currentLevel baseline : Int) (samples : List Int)
    (hne : samples ≠ []) (hN : samples.length < 16777216)
    (hc : INT_MIN ≤ currentLevel - baseline ∧ currentLevel - baseline ≤ INT_MAX)
    (hs : ∀ s ∈ samples, INT_MIN ≤ s - baseline ∧ s - baseline ≤ INT_MAX) :
    ErrWithin (samples.length + 9) (varianceScore32 currentLevel baseline samples)
      (4 / 10 * ((currentLevel - baseline : Int) : ℚ) / 150
        + 3 / 10 * meanSquaredDeviation samples baseline / 150 ^ 2)
      (|4 / 10 * ((currentLevel - baseline : Int) : ℚ) / 150|
        + 3 / 10 * meanSquaredDeviation samples baseline / 150 ^ 2) := by
  have hpos : (0 : ℚ) < samples.length := by
    have : samples.length ≠ 0 := fun h => hne (List.length_eq_zero.1 h)
    exact_mod_cast Nat.pos_of_ne_zero this
  have hm := meanSquaredDeviation_nonneg samples baseline
  unfold varianceScore32
  rw [f32_natCast _ hN]
  have hv : ErrWithin (samples.length + 3) (varianceSum32 samples baseline) _ _ :=
    varianceSum32_err samples baseline hs samples.length (le_refl _)
  have h1 := errWithin_f32 (errWithin_div hv (samples.length : ℚ) hpos)
  have h2 := errWithin_f32 (errWithin_div h1 22500 (by norm_num))
  have h3 := errWithin_f64 (errWithin_mul h2 (errWithin_const (3 / 10)))
  have hl := errWithin_mono (levelScore32_err currentLevel baseline hc)
    (by omega : 6 ≤ samples.length + 3 + 1 + 1 + 1 + 1)
  have h4 := errWithin_f32 (errWithin_f64 (errWithin_add hl h3))
  refine errWithin_congr (errWithin_mono h4 (by omega)) ?_ ?_
  · unfold meanSquaredDeviation
    ring
  · unfold meanSquaredDeviation
    rw [abs_of_pos (by norm_num : (0 : ℚ) < 3 / 10)]
    ring

/-! ## The claims -/

/-- C1. For every sample window and every baseline whose threshold `baseline + 75` does not
overflow, `detectSoundPattern` returns `true` exactly when at least two interior indices
`1 ≤ i ≤ N - 2` hold a strict local maximum strictly above `baseline + 75`
(`samples[i] > baseline + 75`, `samples[i] > samples[i-1]` and `samples[i] > samples[i+1]`). -/
theorem detectSoundPattern_iff_two_spikes (samples : List Int) (baseline : Int)
    (hlo : INT_MIN ≤ baseline + 75) (hhi : baseline + 75 ≤ INT_MAX) :
    detectSoundPattern samples samples.length baseline
      = .ok (decide (2 ≤ peakCount samples (baseline + 75))) := by
  rw [detectSoundPattern_eq, wrapInt_eq _ hlo hhi]

/-- C1, witness of the claim: the window `[10,200,10,200,10,200,10]` with baseline `10` has
three spikes and is detected. -/
theorem detectSoundPattern_scenarioB :
    peakCount [10, 200, 10, 200, 10, 200, 10] (10 + 75) = 3 ∧
      detectSoundPattern [10, 200, 10, 200, 10, 200, 10]
        ([10, 200, 10, 200, 10, 200, 10] : List Int).length 10 = .ok true := by
  refine ⟨by decide, ?_⟩
  rw [detectSoundPattern_iff_two_spikes _ 10 (by decide) (by decide)]
  exact congrArg Except.ok (decide_eq_true (by decide))

/-- C2, the failing input: ten samples of which exactly three are above the threshold
`0 + 100`, all three of them interior peaks.  The ratio `(float)3 / 10` is the `float` nearest
to `0.3`, which lies above the `double` literal `0.3` it is compared with, so
`detectVoicePattern` returns `true` although the exact fraction `3/10` is not above `0.3`. -/
theorem detectVoicePattern_ratio_three_tenths :
    detectVoicePattern [0, 200, 0, 200, 0, 200, 0, 0, 0, 0]
        ([0, 200, 0, 200, 0, 200, 0, 0, 0, 0] : List Int).length 0 = .ok true ∧
      activeCount [0, 200, 0, 200, 0, 200, 0, 0, 0, 0] (0 + 100) = 3 ∧
      peakCount [0, 200, 0, 200, 0, 200, 0, 0, 0, 0] (0 + 100) = 3 ∧
      ¬ ((3 : ℚ) / 10 <
        (activeCount [0, 200, 0, 200, 0, 200, 0, 0, 0, 0] (0 + 100) : ℚ)
          / (([0, 200, 0, 200, 0, 200, 0, 0, 0, 0] : List Int).length : ℚ)) := by
  have ha : activeCount [0, 200, 0, 200, 0, 200, 0, 0, 0, 0] (0 + 100) = 3 := by decide
  have hp : peakCount [0, 200, 0, 200, 0, 200, 0, 0, 0, 0] (0 + 100) = 3 := by decide
  have hw : wrapInt (0 + 100) = 0 + 100 := by decide
  refine ⟨?_, ha, hp, ?_⟩
  · rw [detectVoicePattern_eq, hw]
    have hr : activeRatio [0, 200, 0, 200, 0, 200, 0, 0, 0, 0] (0 + 100)
        = 5033165 / 16777216 := by
      unfold activeRatio
      rw [ha]
      norm_num [f32_three, f32_ten, f32_three_tenths]
    rw [hr, hp, f64_three_tenths]
    norm_num [f64_eight_tenths]
  · rw [ha]
    norm_num

/-- C3 (amended). For every sample window, the empty one included, and every baseline whose
threshold `baseline + 100` does not overflow, `analyzeHelpSyllables` returns `true` exactly when
the number of syllable runs above `baseline + 100` is 2 or 3; a window with no sample above the
threshold yields `false`. -/
theorem analyzeHelpSyllables_iff_runs (samples : List Int) (baseline : Int)
    (hlo : INT_MIN ≤ baseline + 100) (hhi : baseline + 100 ≤ INT_MAX) :
    analyzeHelpSyllables samples samples.length baseline
        = .ok (decide (runCount samples (baseline + 100) = 2 ∨
            runCount samples (baseline + 100) = 3)) ∧
      ((∀ x ∈ samples, x ≤ baseline + 100) →
        analyzeHelpSyllables samples samples.length baseline = .ok false) := by
  have key := analyzeHelpSyllables_eq samples baseline
  rw [wrapInt_eq _ hlo hhi] at key
  refine ⟨key, fun h => ?_⟩
  rw [key, runCount_eq_zero _ _ h]
  rfl

/-- C3, witness: two runs above the threshold `0 + 100` give `true`, an all-quiet window gives
`false`, and so does the empty window. -/
theorem analyzeHelpSyllables_iff_runs_witness :
    runCount [0, 300, 300, 0, 250, 0] (0 + 100) = 2 ∧
      analyzeHelpSyllables [0, 300, 300, 0, 250, 0]
        ([0, 300, 300, 0, 250, 0] : List Int).length 0 = .ok true ∧
      analyzeHelpSyllables [] ([] : List Int).length 0 = .ok false := by
  refine ⟨by decide, ?_, ?_⟩
  · rw [(analyzeHelpSyllables_iff_runs [0, 300, 300, 0, 250, 0] 0 (by decide) (by decide)).1]
    exact congrArg Except.ok (decide_eq_true (by decide))
  · exact (analyzeHelpSyllables_iff_runs [] 0 (by decide) (by decide)).2 (by simp)

/-- C3, counterexample to the claim as stated: with baseline `INT_MAX` the threshold
`baseline + 100` wraps around to `-2147483549`; the window `[0, INT_MIN, 0]` then has two runs for
the code, which returns `true`, although no sample is above `baseline + 100`. -/
theorem analyzeHelpSyllables_overflow_counterexample :
    analyzeHelpSyllables [0, -2147483648, 0] ([0, -2147483648, 0] : List Int).length 2147483647
        = .ok true ∧
      ¬ (runCount [0, -2147483648, 0] (2147483647 + 100) = 2 ∨
          runCount [0, -2147483648, 0] (2147483647 + 100) = 3) := by
  refine ⟨?_, by decide⟩
  rw [analyzeHelpSyllables_eq]
  exact congrArg Except.ok (decide_eq_true (by decide))

/-- C4 (amended). For every window of at most `2^22` samples and every baseline whose
threshold `baseline + 100` does not overflow, when `detectVoicePattern` is `true` then
`calculateVoiceConfidence` returns the `float` nearest to
`min(1.0, 0.3 + (0.4 if analyzeHelpSyllables is true) + (0.3 if 0.3 ≤ active/N ≤ 0.7))`,
where `active` is the number of samples strictly above `baseline + 100`. -/
theorem calculateVoiceConfidence_value (samples : List Int) (baseline : Int)
    (hN : samples.length ≤ 4194304) (hlo : INT_MIN ≤ baseline + 100)
    (hhi : baseline + 100 ≤ INT_MAX)
    (hv : detectVoicePattern samples samples.length baseline = .ok true) :
    calculateVoiceConfidence samples samples.length baseline
      = .ok (f32 (min 1 (3 / 10
          + (if analyzeHelpSyllables samples samples.length baseline = .ok true
              then 4 / 10 else 0)
          + (if (3 : ℚ) / 10
                  ≤ (activeCount samples (baseline + 100) : ℚ) / (samples.length : ℚ) ∧
                (activeCount samples (baseline + 100) : ℚ) / (samples.length : ℚ) ≤ 7 / 10
              then 3 / 10 else 0)))) := by
  have hgate := hv
  rw [detectVoicePattern_eq, wrapInt_eq _ hlo hhi] at hgate
  have hcond := of_decide_eq_true (Except.ok.inj hgate)
  have h5 : 0 < samples.length := by omega
  rw [calculateVoiceConfidence_eq, analyzeHelpSyllables_eq, wrapInt_eq _ hlo hhi, if_pos hcond,
    activeRatio_eq _ _ hN]
  congr 1
  have hr : (f32 ((activeCount samples (baseline + 100) : ℚ) / (samples.length : ℚ))
        ≥ f64 (3 / 10) ∧
      f32 ((activeCount samples (baseline + 100) : ℚ) / (samples.length : ℚ)) ≤ f64 (7 / 10))
      ↔ ((3 : ℚ) / 10
          ≤ (activeCount samples (baseline + 100) : ℚ) / (samples.length : ℚ) ∧
        (activeCount samples (baseline + 100) : ℚ) / (samples.length : ℚ) ≤ 7 / 10) := by
    rw [ratio_ge_three_tenths _ _ h5 hN, ratio_le_seven_tenths _ _ h5 hN]
  rw [decide_eq_decide.2 hr]
  by_cases hs : runCount samples (baseline + 100) = 2 ∨ runCount samples (baseline + 100) = 3
  · by_cases hq : ((3 : ℚ) / 10
        ≤ (activeCount samples (baseline + 100) : ℚ) / (samples.length : ℚ) ∧
      (activeCount samples (baseline + 100) : ℚ) / (samples.length : ℚ) ≤ 7 / 10)
    · rw [decide_eq_true hs, decide_eq_true hq, if_pos rfl, if_pos hq]
      norm_num [confidenceValue, f32_one]
    · rw [decide_eq_true hs, decide_eq_false hq, if_pos rfl, if_neg hq]
      norm_num [confidenceValue, f32_seven_tenths]
  · by_cases hq : ((3 : ℚ) / 10
        ≤ (activeCount samples (baseline + 100) : ℚ) / (samples.length : ℚ) ∧
      (activeCount samples (baseline + 100) : ℚ) / (samples.length : ℚ) ≤ 7 / 10)
    · rw [decide_eq_false hs, decide_eq_true hq, if_neg (by decide), if_pos hq]
      norm_num [confidenceValue, f32_six_tenths]
    · rw [decide_eq_false hs, decide_eq_false hq, if_neg (by decide), if_neg hq]
      norm_num [confidenceValue, f32_three_tenths]

/-- C4, witness: the window `[0, 200, 0, 200, 0]` with baseline `0` has two peaks, two syllable
runs and an active ratio of `2/5`; it passes the voice gate and earns both terms, so the
confidence is `1.0`. -/
theorem calculateVoiceConfidence_value_witness :
    detectVoicePattern [0, 200, 0, 200, 0] ([0, 200, 0, 200, 0] : List Int).length 0
        = .ok true ∧
      calculateVoiceConfidence [0, 200, 0, 200, 0] ([0, 200, 0, 200, 0] : List Int).length 0
        = .ok 1 := by
  have ha : activeCount [0, 200, 0, 200, 0] (0 + 100) = 2 := by decide
  have hp : peakCount [0, 200, 0, 200, 0] (0 + 100) = 2 := by decide
  have hs : analyzeHelpSyllables [0, 200, 0, 200, 0] ([0, 200, 0, 200, 0] : List Int).length 0
      = .ok true := by
    rw [analyzeHelpSyllables_eq]
    exact congrArg Except.ok (decide_eq_true (by decide))
  have hv : detectVoicePattern [0, 200, 0, 200, 0] ([0, 200, 0, 200, 0] : List Int).length 0
      = .ok true := by
    rw [detectVoicePattern_bounded _ 0 (by decide) (by decide) (by decide), ha, hp]
    norm_num
  refine ⟨hv, ?_⟩
  rw [calculateVoiceConfidence_value _ 0 (by decide) (by decide) (by decide) hv, hs, ha]
  norm_num [f32_one]

/-- C4, counterexample to the claim as stated: with baseline `INT_MAX` the threshold
`baseline + 100` wraps around to `-2147483549`.  On the window `[INT_MIN, 0, -5, 0, INT_MIN]`
the code sees three active samples, passes the voice gate and returns the `float` `0.6`; no
sample is above `baseline + 100`, so the claimed value is `min(1.0, 0.3 + 0 + 0) = 0.3`. -/
theorem calculateVoiceConfidence_overflow_counterexample :
    detectVoicePattern [-2147483648, 0, -5, 0, -2147483648]
        ([-2147483648, 0, -5, 0, -2147483648] : List Int).length 2147483647 = .ok true ∧
      analyzeHelpSyllables [-2147483648, 0, -5, 0, -2147483648]
        ([-2147483648, 0, -5, 0, -2147483648] : List Int).length 2147483647 = .ok false ∧
      activeCount [-2147483648, 0, -5, 0, -2147483648] (2147483647 + 100) = 0 ∧
      calculateVoiceConfidence [-2147483648, 0, -5, 0, -2147483648]
        ([-2147483648, 0, -5, 0, -2147483648] : List Int).length 2147483647
        = .ok (5033165 / 8388608) ∧
      (5033165 : ℚ) / 8388608 ≠ min 1 (3 / 10 + 0 + 0) ∧
      (5033165 : ℚ) / 8388608 ≠ f32 (min 1 (3 / 10 + 0 + 0)) := by
  have hw : wrapInt (2147483647 + 100) = -2147483549 := by decide
  have ha : activeCount [-2147483648, 0, -5, 0, -2147483648] (-2147483549) = 3 := by decide
  have hp : peakCount [-2147483648, 0, -5, 0, -2147483648] (-2147483549) = 2 := by decide
  have hs : runCount [-2147483648, 0, -5, 0, -2147483648] (-2147483549) = 1 := by decide
  have hr : activeRatio [-2147483648, 0, -5, 0, -2147483648] (-2147483549)
      = 5033165 / 8388608 := by
    unfold activeRatio
    rw [ha]
    norm_num [f32_three, f32_five, f32_six_tenths]
  refine ⟨?_, ?_, by decide, ?_, by norm_num, ?_⟩
  · rw [detectVoicePattern_eq, hw, hr, hp]
    norm_num [f64_three_tenths, f64_eight_tenths]
  · rw [analyzeHelpSyllables_eq, hw, hs]
    rfl
  · rw [calculateVoiceConfidence_eq, hw, hr, hp, hs]
    norm_num [f64_three_tenths, f64_eight_tenths, f64_seven_tenths, confidenceValue]
  · norm_num [f32_three_tenths]

/-- C5. For every window and baseline, when `detectVoicePattern` returns `false` then
`calculateVoiceConfidence` returns exactly `0.0`; the syllable and ratio terms are never
looked at. -/
theorem calculateVoiceConfidence_gated (samples : List Int) (count baseline : Int)
    (h : detectVoicePattern samples count baseline = .ok false) :
    calculateVoiceConfidence samples count baseline = .ok 0 := by
  unfold calculateVoiceConfidence
  rw [h]
  simp [f32, f64, roundTo_zero]

/-- C5, witness: the window `[200, 0, 200, 0, 0]` with baseline `0` has two syllable runs and an
active ratio of `0.4`, but only one interior peak; the voice gate fails and the confidence
is `0.0`. -/
theorem calculateVoiceConfidence_gated_witness :
    analyzeHelpSyllables [200, 0, 200, 0, 0] ([200, 0, 200, 0, 0] : List Int).length 0
        = .ok true ∧
      detectVoicePattern [200, 0, 200, 0, 0] ([200, 0, 200, 0, 0] : List Int).length 0
        = .ok false ∧
      calculateVoiceConfidence [200, 0, 200, 0, 0] ([200, 0, 200, 0, 0] : List Int).length 0
        = .ok 0 := by
  have hv : detectVoicePattern [200, 0, 200, 0, 0] ([200, 0, 200, 0, 0] : List Int).length 0
      = .ok false := by
    rw [detectVoicePattern_eq]
    have : peakCount [200, 0, 200, 0, 0] (wrapInt (0 + 100)) = 1 := by decide
    rw [this]
    simp
  refine ⟨?_, hv, calculateVoiceConfidence_gated _ _ _ hv⟩
  rw [analyzeHelpSyllables_eq]
  exact congrArg Except.ok (decide_eq_true (by decide))

/-- C6. For every window of integer samples and every integer baseline,
`calculateVoiceConfidence` returns a value, and that value lies in the closed interval
`[0.0, 1.0]`. -/
theorem calculateVoiceConfidence_range (samples : List Int) (baseline : Int) :
    ∃ v : ℚ, calculateVoiceConfidence samples samples.length baseline = .ok v ∧
      0 ≤ v ∧ v ≤ 1 := by
  rw [calculateVoiceConfidence_eq]
  refine ⟨_, rfl, ?_⟩
  split_ifs
  · generalize decide (runCount samples (wrapInt (baseline + 100)) = 2 ∨
      runCount samples (wrapInt (baseline + 100)) = 3) = s
    generalize decide (activeRatio samples (wrapInt (baseline + 100)) ≥ f64 (3 / 10) ∧
      activeRatio samples (wrapInt (baseline + 100)) ≤ f64 (7 / 10)) = r
    cases s <;> cases r <;> norm_num [confidenceValue]
  · norm_num

/-- C7. For every sample window `getSoundTrend` returns `1` (Rising) when the adjacent pairs with
`samples[i] > samples[i-1]` strictly outnumber those with `samples[i] < samples[i-1]`, `-1`
(Falling) when they are strictly fewer and `0` (Stable) otherwise; consequently every strictly
increasing window of length at least 2 is Rising. -/
theorem getSoundTrend_spec (samples : List Int) :
    getSoundTrend samples samples.length
        = .ok (if risingPairs samples > fallingPairs samples then 1
            else if risingPairs samples < fallingPairs samples then -1 else 0) ∧
      (2 ≤ samples.length → List.Chain' (· < ·) samples →
        getSoundTrend samples samples.length = .ok 1) := by
  refine ⟨getSoundTrend_eq samples, fun hlen hinc => ?_⟩
  rw [getSoundTrend_eq]
  have hr : risingPairs samples = samples.length - 1 := by
    unfold risingPairs
    rw [Finset.filter_true_of_mem, Nat.card_Ico]
    intro i hi
    rw [Finset.mem_Ico] at hi
    exact getD_succ_of_chain samples hinc i hi.1 hi.2
  have hf : fallingPairs samples = 0 := by
    unfold fallingPairs
    rw [Finset.filter_false_of_mem, Finset.card_empty]
    intro i hi
    rw [Finset.mem_Ico] at hi
    exact not_lt.2 (le_of_lt (getD_succ_of_chain samples hinc i hi.1 hi.2))
  rw [hr, hf, if_pos (by omega)]

/-- C7, witness of the claim: the strictly increasing window `[1,2,3,4,5]` is Rising. -/
theorem getSoundTrend_scenarioE :
    getSoundTrend [1, 2, 3, 4, 5] ([1, 2, 3, 4, 5] : List Int).length = .ok 1 :=
  (getSoundTrend_spec [1, 2, 3, 4, 5]).2 (by decide) (by simp)

/-- C8 (amended). For every current level, baseline and non-empty `recent_samples` for which
the `int` subtractions `current_level - baseline` and `sample - baseline` do not overflow,
`calculateAnomalyScore`, with every floating-point operation taken as exact, returns
`0.4 * (current_level - baseline) / 150 + 0.3 * (mean of (sample - baseline)^2) / 150^2`
plus `0.3` when `detectSoundPattern` is `true` on the same window and baseline; the result is
not clamped. -/
theorem calculateAnomalyScoreExact_eq (currentLevel baseline : Int) (recentSamples : List Int)
    (hne : recentSamples ≠ [])
    (hc : INT_MIN ≤ currentLevel - baseline ∧ currentLevel - baseline ≤ INT_MAX)
    (hs : ∀ s ∈ recentSamples, INT_MIN ≤ s - baseline ∧ s - baseline ≤ INT_MAX) :
    calculateAnomalyScoreExact currentLevel baseline recentSamples recentSamples.length
      = .ok (4 / 10 * ((currentLevel - baseline : Int) : ℚ) / 150
          + 3 / 10 * meanSquaredDeviation recentSamples baseline / 150 ^ 2
          + (if detectSoundPattern recentSamples recentSamples.length baseline = .ok true
              then 3 / 10 else 0)) := by
  rw [calculateAnomalyScoreExact_wrap _ _ _ hne, wrapInt_eq _ hc.1 hc.2]
  have hsum : (∑ i in Finset.range recentSamples.length,
        ((wrapInt (recentSamples.getD i 0 - baseline) : Int) : ℚ) ^ 2)
      = ∑ i in Finset.range recentSamples.length,
        ((recentSamples.getD i 0 - baseline : Int) : ℚ) ^ 2 := by
    apply Finset.sum_congr rfl
    intro i hi
    have hb := hs _ (getD_mem recentSamples i (Finset.mem_range.1 hi))
    rw [wrapInt_eq _ hb.1 hb.2]
  rw [hsum]
  rfl

/-- C8, witness: level `300` over baseline `100` with the window `[100, 400, 100, 400, 100]`
gives `0.4 * 200 / 150 + 0.3 * 36000 / 22500 + 0.3 = 197 / 150`, which is above `1`. -/
theorem calculateAnomalyScoreExact_eq_witness :
    calculateAnomalyScoreExact 300 100 [100, 400, 100, 400, 100]
      ([100, 400, 100, 400, 100] : List Int).length = .ok (197 / 150) := by
  rw [calculateAnomalyScoreExact_eq 300 100 [100, 400, 100, 400, 100] (by simp) (by decide)
    (by decide)]
  have hd : detectSoundPattern [100, 400, 100, 400, 100]
      ([100, 400, 100, 400, 100] : List Int).length 100 = .ok true := by
    rw [detectSoundPattern_eq]
    exact congrArg Except.ok (decide_eq_true (by decide))
  rw [hd, if_pos rfl]
  congr 1
  simp [meanSquaredDeviation, Finset.sum_range_succ]
  norm_num

/-- C8, counterexample to the claim as stated: for `currentLevel = INT_MAX` and
`baseline = -1` the `int` difference wraps around to `INT_MIN`.  The code returns the
negative score `-5726623`, and in exact arithmetic `-2147483648 / 375`, while the claimed
value `0.4 * 2147483648 / 150 + 0 + 0` is positive. -/
theorem calculateAnomalyScore_overflow_counterexample :
    calculateAnomalyScore 2147483647 (-1) [-1] ([-1] : List Int).length = .ok (-5726623) ∧
      calculateAnomalyScoreExact 2147483647 (-1) [-1] ([-1] : List Int).length
        = .ok (-(2147483648 / 375)) ∧
      0 < 4 / 10 * ((2147483647 - (-1) : Int) : ℚ) / 150
          + 3 / 10 * meanSquaredDeviation [-1] (-1) / 150 ^ 2
          + (if detectSoundPattern [-1] ([-1] : List Int).length (-1) = .ok true
              then 3 / 10 else 0) := by
  have hd : detectSoundPattern [-1] ([-1] : List Int).length (-1) = .ok false := by
    rw [detectSoundPattern_eq]
    exact congrArg Except.ok (decide_eq_false (by decide))
  have hp : peakCount [-1] (wrapInt (-1 + 75)) = 0 := by decide
  have hw : wrapInt (2147483647 - -1) = -2147483648 := by decide
  have hw0 : wrapInt 0 = 0 := by decide
  have z64 : f64 0 = 0 := roundTo_zero 53
  have z32 : f32 0 = 0 := roundTo_zero 24
  have hv : varianceSum32 [-1] (-1) = 0 := by
    simp [varianceSum32, hw0, z32]
  have hl : levelScore32 2147483647 (-1) = -5726623 := by
    unfold levelScore32
    rw [hw]
    norm_num [f32_int_min, f32_level_int_min, f64_four_tenths, f64_level_int_min_scaled,
      f64_level_int_min_sum, f32_level_int_min_score]
  have hs : varianceScore32 2147483647 (-1) [-1] = -5726623 := by
    unfold varianceScore32
    rw [hl, hv]
    norm_num [f32_one, z32, z64, f64_level_int_min_keep, f32_level_int_min_keep]
  refine ⟨?_, ?_, ?_⟩
  · rw [calculateAnomalyScore_eq _ _ _ (by simp), hp, hs]
    simp
  · rw [calculateAnomalyScoreExact_wrap _ _ _ (by simp), hd, hw]
    simp [hw0]
    norm_num
  · rw [hd]
    simp [meanSquaredDeviation]

/-- C9. Undersized windows give the neutral result without any out-of-range read: below three
samples `detectSoundPattern` returns `false`, below five `detectVoicePattern` returns `false` and
`calculateVoiceConfidence` returns `0.0`, below two `getSoundTrend` returns `0` (Stable), for
every baseline. -/
theorem undersized_windows_neutral (samples : List Int) (baseline : Int) :
    (samples.length < 3 → detectSoundPattern samples samples.length baseline = .ok false) ∧
    (samples.length < 5 → detectVoicePattern samples samples.length baseline = .ok false ∧
      calculateVoiceConfidence samples samples.length baseline = .ok 0) ∧
    (samples.length < 2 → getSoundTrend samples samples.length = .ok 0) := by
  refine ⟨fun h => ?_, fun h => ?_, fun h => ?_⟩
  · unfold detectSoundPattern
    rw [if_pos (by omega)]
  · have hv : detectVoicePattern samples samples.length baseline = .ok false := by
      unfold detectVoicePattern
      rw [if_pos (by omega)]
    refine ⟨hv, ?_⟩
    unfold calculateVoiceConfidence
    rw [hv]
    simp [f32, f64, roundTo_zero]
  · unfold getSoundTrend
    rw [if_pos (by omega)]

/-- C9, witness: the one-sample window `[7]` is below every minimum. -/
theorem undersized_windows_neutral_witness :
    detectSoundPattern [7] ([7] : List Int).length 3 = .ok false ∧
    detectVoicePattern [7] ([7] : List Int).length 3 = .ok false ∧
    calculateVoiceConfidence [7] ([7] : List Int).length 3 = .ok 0 ∧
    getSoundTrend [7] ([7] : List Int).length = .ok 0 :=
  ⟨(undersized_windows_neutral [7] 3).1 (by decide),
    ((undersized_windows_neutral [7] 3).2.1 (by decide)).1,
    ((undersized_windows_neutral [7] 3).2.1 (by decide)).2,
    (undersized_windows_neutral [7] 3).2.2 (by decide)⟩

/-- C10. For every sample window and every baseline, `detectSoundPattern` returns the same
boolean on the reversed window as on the window itself. -/
theorem detectSoundPattern_reverse (samples : List Int) (baseline : Int) :
    detectSoundPattern samples.reverse samples.reverse.length baseline
      = detectSoundPattern samples samples.length baseline ∧
    ∃ b : Bool, detectSoundPattern samples samples.length baseline = .ok b := by
  rw [detectSoundPattern_eq, detectSoundPattern_eq, peakCount_reverse]
  exact ⟨rfl, _, rfl⟩

/-! ## Shifts, gaps and representable values -/

/-- A window without any interior strict local maximum above the threshold has no peak. -/
theorem peakCount_eq_zero (samples : List Int) (threshold : Int)
    (h : ∀ i, 1 ≤ i → i + 2 ≤ samples.length → ¬ IsLocalMaxAbove samples threshold i) :
    peakCount samples threshold = 0 := by
  unfold peakCount
  rw [Finset.card_eq_zero, Finset.filter_eq_empty_iff]
  intro i hi
  rw [Finset.mem_Icc] at hi
  exact h i hi.1 (by omega)

/-- Raising the threshold can only remove peaks. -/
theorem peakCount_antitone (samples : List Int) {t t' : Int} (h : t ≤ t') :
    peakCount samples t' ≤ peakCount samples t := by
  unfold peakCount
  apply Finset.card_le_card
  intro i hi
  rw [Finset.mem_filter] at hi ⊢
  exact ⟨hi.1, lt_of_le_of_lt h hi.2.1, hi.2.2⟩

/-- The result of `detectVoicePattern` is `false` as soon as fewer than two peaks exist. -/
theorem detectVoicePattern_of_few_peaks (samples : List Int) (baseline : Int)
    (h : peakCount samples (wrapInt (baseline + 100)) < 2) :
    detectVoicePattern samples samples.length baseline = .ok false := by
  rw [detectVoicePattern_eq]
  refine congrArg Except.ok (decide_eq_false ?_)
  rintro ⟨_, _, _, h4⟩
  omega

/-- When the voice pattern is not detected the confidence is `0.0`. -/
theorem calculateVoiceConfidence_of_no_voice (samples : List Int) (count baseline : Int)
    (h : detectVoicePattern samples count baseline = .ok false) :
    calculateVoiceConfidence samples count baseline = .ok 0 := by
  unfold calculateVoiceConfidence
  rw [h]
  simp [f32, f64, roundTo_zero]

/-- A read of a window shifted by `c` is the shifted read, inside the window. -/
theorem getD_map_add (samples : List Int) (c : Int) (i : Nat) (h : i < samples.length) :
    (samples.map (fun s => s + c)).getD i 0 = samples.getD i 0 + c := by
  rw [List.getD_eq_getElem?_getD, List.getD_eq_getElem?_getD, List.getElem?_map,
    List.getElem?_eq_getElem h]
  rfl

/-- Shifting the window and the threshold by the same offset keeps the peaks. -/
theorem peakCount_shift (samples : List Int) (t c : Int) :
    peakCount (samples.map (fun s => s + c)) (t + c) = peakCount samples t := by
  unfold peakCount
  rw [List.length_map]
  apply congrArg Finset.card
  apply Finset.filter_congr
  intro i hi
  rw [Finset.mem_Icc] at hi
  unfold IsLocalMaxAbove
  rw [getD_map_add _ _ i (by omega), getD_map_add _ _ (i - 1) (by omega),
    getD_map_add _ _ (i + 1) (by omega)]
  constructor <;> rintro ⟨h1, h2, h3⟩ <;> refine ⟨?_, ?_, ?_⟩ <;> omega

/-- Shifting the window and the threshold by the same offset keeps the active samples. -/
theorem activeCount_shift (samples : List Int) (t c : Int) :
    activeCount (samples.map (fun s => s + c)) (t + c) = activeCount samples t := by
  unfold activeCount
  rw [List.length_map]
  apply congrArg Finset.card
  apply Finset.filter_congr
  intro i hi
  rw [Finset.mem_range] at hi
  rw [getD_map_add _ _ i hi]
  constructor <;> intro h <;> omega

/-- Shifting the window and the threshold by the same offset keeps the syllable runs. -/
theorem runCount_shift (samples : List Int) (t c : Int) :
    runCount (samples.map (fun s => s + c)) (t + c) = runCount samples t := by
  unfold runCount
  rw [List.length_map]
  apply congrArg Finset.card
  apply Finset.filter_congr
  intro i hi
  rw [Finset.mem_range] at hi
  unfold IsRunStart
  rw [getD_map_add _ _ i hi]
  rcases Nat.eq_zero_or_pos i with h0 | h0
  · subst h0
    simp
  · rw [getD_map_add _ _ (i - 1) (by omega)]
    constructor <;> rintro ⟨h1, h2⟩ <;> refine ⟨by omega, Or.inr ?_⟩ <;>
      rcases h2 with h2 | h2 <;> omega

/-- Shifting the window and the threshold by the same offset keeps the `float` ratio. -/
theorem activeRatio_shift (samples : List Int) (t c : Int) :
    activeRatio (samples.map (fun s => s + c)) (t + c) = activeRatio samples t := by
  unfold activeRatio
  rw [activeCount_shift, List.length_map]

/-- A window whose samples are all above the threshold has the `float` ratio `1.0`. -/
theorem activeRatio_all_active (samples : List Int) (t : Int) (hne : samples ≠ [])
    (h : ∀ x ∈ samples, x > t) : activeRatio samples t = 1 := by
  have hc : activeCount samples t = samples.length := by
    unfold activeCount
    rw [Finset.filter_true_of_mem, Finset.card_range]
    intro i hi
    exact h _ (getD_mem samples i (Finset.mem_range.1 hi))
  have hlen : f32 (samples.length : ℚ) ≠ 0 := by
    apply f32_ne_zero
    have : samples.length ≠ 0 := fun h0 => hne (List.length_eq_zero.1 h0)
    exact_mod_cast this
  unfold activeRatio
  rw [hc, div_self hlen, f32_one]

/-- A division by the `float` zero faults. -/
theorem fdivWith_zero (r32 : ℚ → ℚ) (x : ℚ) : fdivWith r32 x 0 = .error .divByZero := by
  unfold fdivWith
  rw [if_pos rfl]

/-- A loop over an empty range leaves the state as it is. -/
theorem forRange_zero {σ : Type} (body : Nat → σ → Except Fault σ) (s : σ) :
    forRange 0 ((0 : ℕ) : Int) body s = .ok s := by
  simp [forRange, forLoop]

/-- The variance division of `calculateAnomalyScore` has divisor `0` on the empty window. -/
theorem calculateAnomalyScore_of_length_zero (currentLevel baseline : Int)
    (recentSamples : List Int) (h : recentSamples.length = 0) :
    calculateAnomalyScore currentLevel baseline recentSamples recentSamples.length
      = .error .divByZero := by
  have h150 : f32 ((DETECTION_SENSITIVITY : Int) : ℚ) ≠ 0 :=
    f32_ne_zero _ (by norm_num [DETECTION_SENSITIVITY])
  have hz : f32 ((((0 : ℕ) : Int)) : ℚ) = 0 := by
    rw [Nat.cast_zero, Int.cast_zero]
    exact roundTo_zero 24
  unfold calculateAnomalyScore calculateAnomalyScoreWith
  rw [fdivWith_ok _ _ _ h150, h, forRange_zero, hz]
  simp only
  rw [fdivWith_zero]

/-- A window of fewer than five samples holds at most one interior strict local maximum. -/
theorem peakCount_lt_two_of_short (samples : List Int) (threshold : Int)
    (h : samples.length < 5) : peakCount samples threshold < 2 := by
  by_contra hc
  push_neg at hc
  unfold peakCount at hc
  obtain ⟨a, ha, b, hb, hab⟩ := Finset.one_lt_card.1 hc
  rw [Finset.mem_filter, Finset.mem_Icc] at ha hb
  have hcases : (a = 1 ∧ b = 2) ∨ (a = 2 ∧ b = 1) := by omega
  rcases hcases with ⟨rfl, rfl⟩ | ⟨rfl, rfl⟩
  · have h1 := ha.2.2.2
    have h2 := hb.2.2.1
    norm_num at h1 h2
    omega
  · have h1 := ha.2.2.1
    have h2 := hb.2.2.2
    norm_num at h1 h2
    omega

/-- A loop over the indices of a window that only reads the current sample is a fold over the
samples. -/
theorem foldl_getD {σ : Type} (g : Int → σ → σ) (samples : List Int) (s : σ) :
    (List.range' 0 samples.length).foldl (fun t j => g (samples.getD j 0) t) s
      = samples.foldl (fun t x => g x t) s := by
  induction samples using List.reverseRecOn with
  | nil => rfl
  | append_singleton l a ih =>
    rw [List.length_append, List.length_singleton,
      foldl_range'_succ_last (fun j t => g ((l ++ [a]).getD j 0) t), List.foldl_append,
      List.foldl_cons, List.foldl_nil, ← ih]
    have hlast : (l ++ [a]).getD l.length 0 = a := by
      simp
    rw [hlast]
    congr 1
    apply List.foldl_ext
    intro t j hj
    have hj' : j < l.length := by
      have := (List.mem_range'_1.1 hj).2
      omega
    rw [List.getD_append _ _ _ _ hj']

/-- The syllable counter of `analyzeHelpSyllables` after a fold over the samples is the number
of runs. -/
theorem runCount_eq_foldl (samples : List Int) (threshold : Int) :
    ((runCount samples threshold : Nat) : Int)
      = (samples.foldl (fun st x => syllableNext threshold x st)
          { inSyllable := false, syllableCount := 0, syllableLength := 0,
            gapLength := 0 }).syllableCount := by
  rw [← foldl_getD (fun x st => syllableNext threshold x st)]
  rw [(syllable_invariant samples threshold samples.length).2]
  rfl

theorem syllableNext_inSyllable (threshold s : Int) (st : SyllableState) :
    (syllableNext threshold s st).inSyllable = decide (s > threshold) := by
  unfold syllableNext
  split_ifs <;> simp_all

theorem syllableNext_count_of_le (threshold s : Int) (st : SyllableState)
    (h : s ≤ threshold) :
    (syllableNext threshold s st).syllableCount = st.syllableCount := by
  unfold syllableNext
  have : ¬ s > threshold := not_lt.2 h
  rw [if_neg this]
  split_ifs <;> rfl

/-- The syllable counter and flag after a step depend only on the counter and flag before. -/
theorem syllableNext_agree (threshold s : Int) (st st' : SyllableState)
    (h1 : st.inSyllable = st'.inSyllable) (h2 : st.syllableCount = st'.syllableCount) :
    (syllableNext threshold s st).inSyllable = (syllableNext threshold s st').inSyllable ∧
    (syllableNext threshold s st).syllableCount
      = (syllableNext threshold s st').syllableCount := by
  refine ⟨by rw [syllableNext_inSyllable, syllableNext_inSyllable], ?_⟩
  unfold syllableNext
  rw [h1, h2]
  split_ifs <;> rfl

/-- The syllable counter after a fold depends only on the counter and flag before: the
lengths `syllableLength` and `gapLength` are never read. -/
theorem syllableFold_agree (threshold : Int) (samples : List Int) :
    ∀ (st st' : SyllableState), st.inSyllable = st'.inSyllable →
      st.syllableCount = st'.syllableCount →
      (samples.foldl (fun st x => syllableNext threshold x st) st).syllableCount
        = (samples.foldl (fun st x => syllableNext threshold x st) st').syllableCount := by
  induction samples with
  | nil => intro st st' _ h2; exact h2
  | cons a l ih =>
    intro st st' h1 h2
    rw [List.foldl_cons, List.foldl_cons]
    exact ih _ _ (syllableNext_agree threshold a st st' h1 h2).1
      (syllableNext_agree threshold a st st' h1 h2).2

/-- Inserting a sample that is not above the threshold next to another such sample, or at
either end of the window, keeps the number of runs. -/
theorem runCount_insert_gap (pre post : List Int) (x threshold : Int) (hx : x ≤ threshold)
    (hadj : pre = [] ∨ post = [] ∨ (∃ y, pre.getLast? = some y ∧ y ≤ threshold) ∨
      (∃ y, post.head? = some y ∧ y ≤ threshold)) :
    runCount (pre ++ x :: post) threshold = runCount (pre ++ post) threshold := by
  have key : ((runCount (pre ++ x :: post) threshold : Nat) : Int)
      = ((runCount (pre ++ post) threshold : Nat) : Int) := by
    rw [runCount_eq_foldl, runCount_eq_foldl, List.foldl_append, List.foldl_append,
      List.foldl_cons]
    generalize hs : pre.foldl (fun st x => syllableNext threshold x st)
      { inSyllable := false, syllableCount := 0, syllableLength := 0, gapLength := 0 } = s1
    have hflag : (syllableNext threshold x s1).inSyllable = false := by
      rw [syllableNext_inSyllable]
      exact decide_eq_false (not_lt.2 hx)
    have hcount := syllableNext_count_of_le threshold x s1 hx
    have hquiet : s1.inSyllable = false →
        (post.foldl (fun st x => syllableNext threshold x st)
          (syllableNext threshold x s1)).syllableCount
        = (post.foldl (fun st x => syllableNext threshold x st) s1).syllableCount :=
      fun h => syllableFold_agree threshold post _ _ (by rw [hflag, h]) hcount
    rcases hadj with h | h | ⟨y, hy, hle⟩ | ⟨y, hy, hle⟩
    · apply hquiet
      rw [← hs, h]
      rfl
    · rw [h]
      exact hcount
    · apply hquiet
      obtain ⟨l, rfl⟩ : ∃ l, pre = l ++ [y] := by
        rcases List.eq_nil_or_concat pre with h0 | ⟨l, b, hb⟩
        · rw [h0] at hy
          exact absurd hy (by simp)
        · rw [hb] at hy ⊢
          simp at hy
          exact ⟨l, by rw [hy]; simp⟩
      rw [← hs, List.foldl_append, List.foldl_cons, List.foldl_nil, syllableNext_inSyllable]
      exact decide_eq_false (not_lt.2 hle)
    · obtain ⟨l, rfl⟩ : ∃ l, post = y :: l := by
        cases post with
        | nil => exact absurd hy (by simp)
        | cons b l =>
          simp at hy
          exact ⟨l, by rw [hy]⟩
      rw [List.foldl_cons, List.foldl_cons]
      apply syllableFold_agree
      · rw [syllableNext_inSyllable, syllableNext_inSyllable]
      · rw [syllableNext_count_of_le _ _ _ hle, syllableNext_count_of_le _ _ _ hle, hcount]
  exact_mod_cast key

/-- Lengthening a gap by any number of samples that are not above the threshold keeps the
number of runs. -/
theorem runCount_lengthen_gap (pre post gap : List Int) (x threshold : Int)
    (hx : x ≤ threshold) (hgap : ∀ g ∈ gap, g ≤ threshold) :
    runCount (pre ++ x :: (gap ++ post)) threshold = runCount (pre ++ x :: post) threshold := by
  induction gap with
  | nil => rfl
  | cons g gs ih =>
    have h1 := runCount_insert_gap (pre ++ [x]) (gs ++ post) g threshold
      (hgap g (List.mem_cons_self _ _)) (Or.inr (Or.inr (Or.inl ⟨x, by simp, hx⟩)))
    simp only [List.append_assoc, List.singleton_append, List.cons_append,
      List.nil_append] at h1 ⊢
    rw [h1]
    exact ih (fun g' hg' => hgap g' (List.mem_cons_of_mem _ hg'))

/-- A number `m * 2^(e - (q - 1))` of the binade `[2^e, 2^(e+1))` is representable with `q`
significant bits: rounding keeps it. -/
theorem roundTo_of_scaled_int (q : ℕ) (y : ℚ) (e m : ℤ) (h1 : (2 : ℚ) ^ e ≤ |y|)
    (h2 : |y| < (2 : ℚ) ^ (e + 1)) (hm : y = m * 2 ^ (e - ((q : ℤ) - 1))) :
    roundTo q y = y := by
  have hu : (0 : ℚ) < 2 ^ (e - ((q : ℤ) - 1)) := by positivity
  have hdiv : y / 2 ^ (e - ((q : ℤ) - 1)) = m := by
    rw [div_eq_iff hu.ne']
    exact hm
  rw [roundTo_eq q y e m h1 h2 (Or.inl (by rw [hdiv]; linarith))
    (Or.inl (by rw [hdiv]; linarith))]
  exact hm.symm

theorem roundTo_roundTo_pos (p q : ℕ) (hp : 1 ≤ p) (hpq : p ≤ q) (x : ℚ) (hx : 0 < x) :
    roundTo q (roundTo p x) = roundTo p x := by
  have hlo := zpow_le_roundTo p hp x hx
  have hhi := roundTo_le_zpow p x hx
  have hy0 : 0 < roundTo p x := lt_of_lt_of_le (by positivity) hlo
  have hdef : roundTo p x
      = (roundHalfEven (x / 2 ^ (Int.log 2 |x| - ((p : ℤ) - 1))) : ℚ)
        * 2 ^ (Int.log 2 |x| - ((p : ℤ) - 1)) := by
    unfold roundTo
    rw [if_neg hx.ne']
  have h2 : (2 : ℚ) ≠ 0 := by norm_num
  rcases hhi.lt_or_eq with hlt | heq
  · apply roundTo_of_scaled_int q _ (Int.log 2 |x|)
      (roundHalfEven (x / 2 ^ (Int.log 2 |x| - ((p : ℤ) - 1))) * 2 ^ (q - p))
    · rw [abs_of_pos hy0]
      exact hlo
    · rw [abs_of_pos hy0]
      exact hlt
    · rw [hdef]
      push_cast
      rw [mul_assoc, ← zpow_natCast, ← zpow_add₀ h2]
      congr 2
      rw [Nat.cast_sub hpq]
      ring
  · apply roundTo_of_scaled_int q _ (Int.log 2 |x| + 1) (2 ^ (q - 1))
    · rw [abs_of_pos hy0, heq]
    · rw [abs_of_pos hy0, heq]
      exact zpow_lt_zpow_right₀ (by norm_num) (by omega)
    · rw [heq]
      push_cast
      rw [← zpow_natCast, ← zpow_add₀ h2]
      congr 1
      rw [Nat.cast_sub (by omega : 1 ≤ q)]
      push_cast
      ring

/-- Rounding is idempotent, and a value rounded to `p` bits is kept by a rounding to more
bits: a `float` converts to `double` and back without change. -/
theorem roundTo_roundTo (p q : ℕ) (hp : 1 ≤ p) (hpq : p ≤ q) (x : ℚ) :
    roundTo q (roundTo p x) = roundTo p x := by
  rcases lt_trichotomy 0 x with hx | hx | hx
  · exact roundTo_roundTo_pos p q hp hpq x hx
  · rw [← hx, roundTo_zero, roundTo_zero]
  · have h := roundTo_roundTo_pos p q hp hpq (-x) (by linarith)
    rw [roundTo_neg, roundTo_neg] at h
    exact neg_injective h

theorem f64_f32 (x : ℚ) : f64 (f32 x) = f32 x :=
  roundTo_roundTo 24 53 (by norm_num) (by norm_num) x

theorem f32_f32 (x : ℚ) : f32 (f32 x) = f32 x :=
  roundTo_roundTo 24 24 (by norm_num) (le_refl _) x

/-- The `float` sum of squares of the variance loop is not negative. -/
theorem varianceSum32_nonneg (samples : List Int) (baseline : Int) :
    0 ≤ varianceSum32 samples baseline := by
  unfold varianceSum32
  generalize samples.length = n
  induction n with
  | zero => simp
  | succ n ih =>
    rw [foldl_range'_succ_last (fun j t => f32 (t + f32 (f32 (wrapInt (samples.getD j 0
      - baseline)) * f32 (wrapInt (samples.getD j 0 - baseline)))))]
    exact roundTo_nonneg 24 (by norm_num) _
      (add_nonneg ih (roundTo_nonneg 24 (by norm_num) _ (mul_self_nonneg _)))

/-- The `double` value that `calculateAnomalyScore` adds to the score for the variance is not
negative. -/
theorem varianceTerm32_nonneg (samples : List Int) (baseline : Int) :
    0 ≤ f64 (f32 (f32 (varianceSum32 samples baseline / f32 samples.length) / 22500)
      * f64 (3 / 10)) := by
  have h1 : 0 ≤ f32 (samples.length : ℚ) := roundTo_nonneg 24 (by norm_num) _ (by positivity)
  have h2 : 0 ≤ f32 (varianceSum32 samples baseline / f32 samples.length) :=
    roundTo_nonneg 24 (by norm_num) _ (div_nonneg (varianceSum32_nonneg _ _) h1)
  have h3 : 0 ≤ f32 (f32 (varianceSum32 samples baseline / f32 samples.length) / 22500) :=
    roundTo_nonneg 24 (by norm_num) _ (div_nonneg h2 (by norm_num))
  have h4 : 0 ≤ f64 (3 / 10) := roundTo_nonneg 53 (by norm_num) _ (by norm_num)
  exact roundTo_nonneg 53 (by norm_num) _ (mul_nonneg h3 h4)

/-- The `float` score after the variance term is not below the score after the level term. -/
theorem levelScore32_le_varianceScore32 (currentLevel baseline : Int) (samples : List Int) :
    levelScore32 currentLevel baseline ≤ varianceScore32 currentLevel baseline samples := by
  have hkeep : f32 (f64 (levelScore32 currentLevel baseline))
      = levelScore32 currentLevel baseline := by
    unfold levelScore32
    rw [f64_f32, f32_f32]
  rw [← hkeep]
  unfold varianceScore32
  apply f32_mono
  apply f64_mono
  have := varianceTerm32_nonneg samples baseline
  linarith

/-- The `float` score after the pattern bonus is not below the score before it. -/
theorem varianceScore32_le_bonus (currentLevel baseline : Int) (samples : List Int) :
    varianceScore32 currentLevel baseline samples
      ≤ f32 (f64 (varianceScore32 currentLevel baseline samples + f64 (3 / 10))) := by
  have hkeep : f32 (f64 (varianceScore32 currentLevel baseline samples))
      = varianceScore32 currentLevel baseline samples := by
    unfold varianceScore32
    rw [f64_f32, f32_f32]
  have h4 : 0 ≤ f64 (3 / 10) := roundTo_nonneg 53 (by norm_num) _ (by norm_num)
  calc varianceScore32 currentLevel baseline samples
      = f32 (f64 (varianceScore32 currentLevel baseline samples)) := hkeep.symm
    _ ≤ _ := f32_mono (f64_mono (by linarith))

/-- The `float` quotient `1 / 150`. -/
theorem f32_level_one :
    f32 (1 / 150) = 7158279 / 1073741824 := by
  unfold f32
  rw [roundTo_eq 24 (1 / 150) (-8) 14316558] <;>
    norm_num [abs_of_pos, abs_of_neg]

/-- The `double` product of that quotient and the literal `0.4`. -/
theorem f64_level_one_scaled :
    f64 (25790418109611238820763 / 9671406556917033397649408)
      = 6148914840128717 / 2305843009213693952 := by
  unfold f64
  rw [roundTo_eq 53 (25790418109611238820763 / 9671406556917033397649408) (-9)
    6148914840128717] <;>
    norm_num [abs_of_pos, abs_of_neg]

/-- The score after that level term, converted to `float`. -/
theorem f32_level_one_score :
    f32 (6148914840128717 / 2305843009213693952) = 5726623 / 2147483648 := by
  unfold f32
  rw [roundTo_eq 24 (6148914840128717 / 2305843009213693952) (-9) 11453246] <;>
    norm_num [abs_of_pos, abs_of_neg]

/-- The `float` score after the level term for a level one step above the baseline. -/
theorem levelScore32_one : levelScore32 1 0 = 5726623 / 2147483648 := by
  have hw : wrapInt (1 - 0) = 1 := by decide
  have hk : f64 (6148914840128717 / 2305843009213693952)
      = 6148914840128717 / 2305843009213693952 := by
    rw [← f64_level_one_scaled]
    exact roundTo_roundTo 53 53 (by norm_num) (le_refl _) _
  unfold levelScore32
  rw [hw]
  norm_num [f32_one, f32_level_one, f64_four_tenths, f64_level_one_scaled, hk,
    f32_level_one_score]

/-! ## The claims: scenarios and relations between the functions -/

/-- C11. `detectSoundPattern` is not invariant under permutation of the window: with baseline
`10` the window `[10,200,10,200,10]` is detected and its permutation `[200,200,10,10,10]` is
not. -/
theorem detectSoundPattern_not_perm_invariant :
    ∃ (baseline : Int) (w w' : List Int), List.Perm w w' ∧
      detectSoundPattern w w.length baseline = .ok true ∧
      detectSoundPattern w' w'.length baseline = .ok false := by
  refine ⟨10, [10, 200, 10, 200, 10], [200, 200, 10, 10, 10], by decide, ?_, ?_⟩
  · rw [detectSoundPattern_eq]
    exact congrArg Except.ok (decide_eq_true (by decide))
  · rw [detectSoundPattern_eq]
    exact congrArg Except.ok (decide_eq_false (by decide))

/-- C12 (amended). For every window of at most `2^22` samples and every baseline whose threshold
`baseline + 100` does not overflow: when the window has exactly two runs above the threshold,
a duty cycle `active/N` with `0.3 < active/N ≤ 0.7`, and at least two interior strict local
maxima above the threshold, then `detectVoicePattern` returns `true`, `analyzeHelpSyllables`
returns `true` and `calculateVoiceConfidence` returns `1.0`, which is at least `0.7`. -/
theorem two_syllable_voice (samples : List Int) (baseline : Int)
    (hN : samples.length ≤ 4194304) (hlo : INT_MIN ≤ baseline + 100)
    (hhi : baseline + 100 ≤ INT_MAX)
    (hruns : runCount samples (baseline + 100) = 2)
    (hduty1 : (3 : ℚ) / 10
      < (activeCount samples (baseline + 100) : ℚ) / (samples.length : ℚ))
    (hduty2 : (activeCount samples (baseline + 100) : ℚ) / (samples.length : ℚ) ≤ 7 / 10)
    (hpeaks : 2 ≤ peakCount samples (baseline + 100)) :
    detectVoicePattern samples samples.length baseline = .ok true ∧
    analyzeHelpSyllables samples samples.length baseline = .ok true ∧
    calculateVoiceConfidence samples samples.length baseline = .ok 1 ∧
    (7 : ℚ) / 10 ≤ 1 := by
  have h5 : 5 ≤ samples.length := by
    by_contra hlt
    have := peakCount_lt_two_of_short samples (baseline + 100) (by omega)
    omega
  have hw : wrapInt (baseline + 100) = baseline + 100 := wrapInt_eq _ hlo hhi
  have hgt := (ratio_gt_three_tenths (activeCount samples (baseline + 100)) samples.length
    (by omega) hN).2 hduty1.le
  have hge := (ratio_ge_three_tenths (activeCount samples (baseline + 100)) samples.length
    (by omega) hN).2 hduty1.le
  have hlt := (ratio_lt_eight_tenths (activeCount samples (baseline + 100)) samples.length
    (by omega) hN).2 (lt_of_le_of_lt hduty2 (by norm_num))
  have hle := (ratio_le_seven_tenths (activeCount samples (baseline + 100)) samples.length
    (by omega) hN).2 hduty2
  rw [← activeRatio_eq _ _ hN] at hgt hge hlt hle
  have hgate : 5 ≤ samples.length ∧
      activeRatio samples (baseline + 100) > f64 (3 / 10) ∧
      activeRatio samples (baseline + 100) < f64 (8 / 10) ∧
      2 ≤ peakCount samples (baseline + 100) := ⟨h5, hgt, hlt, hpeaks⟩
  refine ⟨?_, ?_, ?_, by norm_num⟩
  · rw [detectVoicePattern_eq, hw]
    exact congrArg Except.ok (decide_eq_true hgate)
  · rw [analyzeHelpSyllables_eq, hw]
    exact congrArg Except.ok (decide_eq_true (Or.inl hruns))
  · rw [calculateVoiceConfidence_eq, hw, if_pos hgate,
      decide_eq_true (Or.inl hruns : runCount samples (baseline + 100) = 2 ∨ _),
      decide_eq_true (⟨hge, hle⟩ : activeRatio samples (baseline + 100) ≥ f64 (3 / 10) ∧ _)]
    rfl

/-- C12, witness: the window `[0, 150, 300, 0, 0, 0, 250, 180, 0, 0]` with baseline `0` has two
runs, four active samples out of ten and a strict peak inside each run. -/
theorem two_syllable_voice_witness :
    detectVoicePattern [0, 150, 300, 0, 0, 0, 250, 180, 0, 0]
        ([0, 150, 300, 0, 0, 0, 250, 180, 0, 0] : List Int).length 0 = .ok true ∧
    analyzeHelpSyllables [0, 150, 300, 0, 0, 0, 250, 180, 0, 0]
        ([0, 150, 300, 0, 0, 0, 250, 180, 0, 0] : List Int).length 0 = .ok true ∧
    calculateVoiceConfidence [0, 150, 300, 0, 0, 0, 250, 180, 0, 0]
        ([0, 150, 300, 0, 0, 0, 250, 180, 0, 0] : List Int).length 0 = .ok 1 ∧
    (7 : ℚ) / 10 ≤ 1 := by
  have ha : activeCount [0, 150, 300, 0, 0, 0, 250, 180, 0, 0] (0 + 100) = 4 := by decide
  exact two_syllable_voice [0, 150, 300, 0, 0, 0, 250, 180, 0, 0] 0 (by decide) (by decide)
    (by decide) (by decide) (by rw [ha]; norm_num) (by rw [ha]; norm_num) (by decide)

/-- C12, counterexample to the claim as stated: with baseline `0` the window
`[0, 200, 200, 0, 0, 200, 200, 0, 0, 0]` has exactly two separated runs above the threshold
`100` and exactly 40% of its samples active, yet no sample is a strict local maximum, so
`detectVoicePattern` returns `false` and `calculateVoiceConfidence` returns `0.0`. -/
theorem two_runs_flat_counterexample :
    runCount [0, 200, 200, 0, 0, 200, 200, 0, 0, 0] (0 + 100) = 2 ∧
    activeCount [0, 200, 200, 0, 0, 200, 200, 0, 0, 0] (0 + 100) * 10
      = 4 * ([0, 200, 200, 0, 0, 200, 200, 0, 0, 0] : List Int).length ∧
    detectVoicePattern [0, 200, 200, 0, 0, 200, 200, 0, 0, 0]
        ([0, 200, 200, 0, 0, 200, 200, 0, 0, 0] : List Int).length 0 = .ok false ∧
    calculateVoiceConfidence [0, 200, 200, 0, 0, 200, 200, 0, 0, 0]
        ([0, 200, 200, 0, 0, 200, 200, 0, 0, 0] : List Int).length 0 = .ok 0 := by
  have hv : detectVoicePattern [0, 200, 200, 0, 0, 200, 200, 0, 0, 0]
      ([0, 200, 200, 0, 0, 200, 200, 0, 0, 0] : List Int).length 0 = .ok false :=
    detectVoicePattern_of_few_peaks _ _ (by decide)
  exact ⟨by decide, by decide, hv, calculateVoiceConfidence_of_no_voice _ _ _ hv⟩

/-- C13. A degenerate baseline gives "no detection": for every window and every baseline
strictly larger than all samples, the thresholds `baseline + 75` and `baseline + 100` not
overflowing, `detectSoundPattern`, `detectVoicePattern` and `analyzeHelpSyllables` return
`false` and `calculateVoiceConfidence` returns `0.0`. -/
theorem degenerate_baseline_no_detection (samples : List Int) (baseline : Int)
    (hbig : ∀ x ∈ samples, x < baseline)
    (hlo : INT_MIN ≤ baseline + 75) (hhi : baseline + 100 ≤ INT_MAX) :
    detectSoundPattern samples samples.length baseline = .ok false ∧
    detectVoicePattern samples samples.length baseline = .ok false ∧
    analyzeHelpSyllables samples samples.length baseline = .ok false ∧
    calculateVoiceConfidence samples samples.length baseline = .ok 0 := by
  have h75 : wrapInt (baseline + 75) = baseline + 75 :=
    wrapInt_eq _ hlo (by unfold INT_MAX at hhi ⊢; omega)
  have h100 : wrapInt (baseline + 100) = baseline + 100 :=
    wrapInt_eq _ (by unfold INT_MIN at hlo ⊢; omega) hhi
  have hp : ∀ t, baseline ≤ t → peakCount samples t = 0 := by
    intro t ht
    apply peakCount_eq_zero
    intro i _ hi hmax
    have := hbig _ (getD_mem samples i (by omega))
    have := hmax.1
    omega
  have hv : detectVoicePattern samples samples.length baseline = .ok false := by
    apply detectVoicePattern_of_few_peaks
    rw [h100, hp _ (by omega)]
    omega
  refine ⟨?_, hv, ?_, calculateVoiceConfidence_of_no_voice _ _ _ hv⟩
  · rw [detectSoundPattern_eq, h75, hp _ (by omega)]
    rfl
  · rw [analyzeHelpSyllables_eq, h100, runCount_eq_zero _ _ (fun x hx => by
      have := hbig x hx
      omega)]
    rfl

/-- C13, witness: baseline `500` over the window `[10, 200, 10, 200, 10, 200, 10]`. -/
theorem degenerate_baseline_no_detection_witness :
    detectSoundPattern [10, 200, 10, 200, 10, 200, 10]
        ([10, 200, 10, 200, 10, 200, 10] : List Int).length 500 = .ok false ∧
    detectVoicePattern [10, 200, 10, 200, 10, 200, 10]
        ([10, 200, 10, 200, 10, 200, 10] : List Int).length 500 = .ok false ∧
    analyzeHelpSyllables [10, 200, 10, 200, 10, 200, 10]
        ([10, 200, 10, 200, 10, 200, 10] : List Int).length 500 = .ok false ∧
    calculateVoiceConfidence [10, 200, 10, 200, 10, 200, 10]
        ([10, 200, 10, 200, 10, 200, 10] : List Int).length 500 = .ok 0 :=
  degenerate_baseline_no_detection [10, 200, 10, 200, 10, 200, 10] 500 (by decide) (by decide)
    (by decide)

/-- C14. Continuous loud sound is not voice: for every non-empty window and every `int`
baseline, when every sample is strictly above `baseline + 100` then `detectVoicePattern`
returns `false` and `calculateVoiceConfidence` returns `0.0`. -/
theorem continuous_loud_not_voice (samples : List Int) (baseline : Int)
    (hne : samples ≠ []) (hint : INT_MIN ≤ baseline)
    (hloud : ∀ x ∈ samples, x > baseline + 100) :
    detectVoicePattern samples samples.length baseline = .ok false ∧
    calculateVoiceConfidence samples samples.length baseline = .ok 0 := by
  have hw : wrapInt (baseline + 100) ≤ baseline + 100 := by
    unfold wrapInt
    unfold INT_MIN at hint
    omega
  have hr : activeRatio samples (wrapInt (baseline + 100)) = 1 :=
    activeRatio_all_active samples _ hne (fun x hx => lt_of_le_of_lt hw (hloud x hx))
  have h8 : f64 (8 / 10) = 3602879701896397 / 4503599627370496 := by
    rw [show (8 : ℚ) / 10 = 4 / 5 by norm_num]
    exact f64_eight_tenths
  have hv : detectVoicePattern samples samples.length baseline = .ok false := by
    rw [detectVoicePattern_eq]
    refine congrArg Except.ok (decide_eq_false ?_)
    rintro ⟨_, _, h, _⟩
    rw [hr, h8] at h
    norm_num at h
  exact ⟨hv, calculateVoiceConfidence_of_no_voice _ _ _ hv⟩

/-- C14, witness: the window `[500, 400, 600, 450, 500]` with baseline `0`. -/
theorem continuous_loud_not_voice_witness :
    detectVoicePattern [500, 400, 600, 450, 500]
        ([500, 400, 600, 450, 500] : List Int).length 0 = .ok false ∧
    calculateVoiceConfidence [500, 400, 600, 450, 500]
        ([500, 400, 600, 450, 500] : List Int).length 0 = .ok 0 :=
  continuous_loud_not_voice [500, 400, 600, 450, 500] 0 (by decide) (by decide) (by decide)

/-- C15. For every constant window, of any length, and every baseline, `detectSoundPattern`
and `detectVoicePattern` return `false` and `getSoundTrend` returns `0` (Stable). -/
theorem constant_window_quiet (samples : List Int) (c baseline : Int)
    (hconst : ∀ x ∈ samples, x = c) :
    detectSoundPattern samples samples.length baseline = .ok false ∧
    detectVoicePattern samples samples.length baseline = .ok false ∧
    getSoundTrend samples samples.length = .ok 0 := by
  have hget : ∀ i, i < samples.length → samples.getD i 0 = c :=
    fun i hi => hconst _ (getD_mem samples i hi)
  have hp : ∀ t, peakCount samples t = 0 := by
    intro t
    apply peakCount_eq_zero
    intro i h1 h2 hmax
    have := hmax.2.1
    rw [hget i (by omega), hget (i - 1) (by omega)] at this
    exact lt_irrefl _ this
  refine ⟨?_, ?_, ?_⟩
  · rw [detectSoundPattern_eq, hp]
    rfl
  · apply detectVoicePattern_of_few_peaks
    rw [hp]
    omega
  · rw [getSoundTrend_eq]
    have hr : risingPairs samples = 0 := by
      unfold risingPairs
      rw [Finset.card_eq_zero, Finset.filter_eq_empty_iff]
      intro i hi
      rw [Finset.mem_Ico] at hi
      rw [hget i hi.2, hget (i - 1) (by omega)]
      exact lt_irrefl _
    have hf : fallingPairs samples = 0 := by
      unfold fallingPairs
      rw [Finset.card_eq_zero, Finset.filter_eq_empty_iff]
      intro i hi
      rw [Finset.mem_Ico] at hi
      rw [hget i hi.2, hget (i - 1) (by omega)]
      exact lt_irrefl _
    rw [hr, hf]
    rfl

/-- C15, witness of the claim: the window `[10,10,10,10,10]` with baseline `10`. -/
theorem constant_window_scenarioA :
    detectSoundPattern [10, 10, 10, 10, 10] ([10, 10, 10, 10, 10] : List Int).length 10
        = .ok false ∧
    detectVoicePattern [10, 10, 10, 10, 10] ([10, 10, 10, 10, 10] : List Int).length 10
        = .ok false ∧
    getSoundTrend [10, 10, 10, 10, 10] ([10, 10, 10, 10, 10] : List Int).length = .ok 0 :=
  constant_window_quiet [10, 10, 10, 10, 10] 10 10 (by decide)

/-- C16. With the configured sensitivity `150`, `calculateAnomalyScore` divides by zero exactly
when `recentSamples` is empty: for every non-empty window the three divisors (the sensitivity,
the sample count and the squared sensitivity, as `float`) are non-zero and a score is
returned; for the empty window the variance division has divisor `0` and the division is
reached. -/
theorem calculateAnomalyScore_divByZero_iff (currentLevel baseline : Int)
    (recentSamples : List Int) :
    (calculateAnomalyScore currentLevel baseline recentSamples recentSamples.length
        = .error .divByZero ↔ recentSamples = []) ∧
    (recentSamples ≠ [] →
      f32 ((DETECTION_SENSITIVITY : Int) : ℚ) ≠ 0 ∧
      f32 ((recentSamples.length : Int) : ℚ) ≠ 0 ∧
      f32 ((wrapInt (DETECTION_SENSITIVITY * DETECTION_SENSITIVITY) : Int) : ℚ) ≠ 0 ∧
      ∃ v, calculateAnomalyScore currentLevel baseline recentSamples recentSamples.length
        = .ok v) := by
  have hok : recentSamples ≠ [] →
      ∃ v, calculateAnomalyScore currentLevel baseline recentSamples recentSamples.length
        = .ok v := fun hne => ⟨_, calculateAnomalyScore_eq _ _ _ hne⟩
  refine ⟨⟨fun h => ?_, fun h => ?_⟩, fun hne => ⟨?_, ?_, ?_, hok hne⟩⟩
  · by_contra hne
    obtain ⟨v, hv⟩ := hok hne
    rw [hv] at h
    exact Except.noConfusion h
  · apply calculateAnomalyScore_of_length_zero
    rw [h]
    rfl
  · exact f32_ne_zero _ (by norm_num [DETECTION_SENSITIVITY])
  · apply f32_ne_zero
    have : recentSamples.length ≠ 0 := fun h0 => hne (List.length_eq_zero.1 h0)
    exact_mod_cast this
  · have hsq : wrapInt (DETECTION_SENSITIVITY * DETECTION_SENSITIVITY) = 22500 := by decide
    rw [hsq]
    exact f32_ne_zero _ (by norm_num)

/-- C16, witness: a score is returned on the window `[0, 300]`, and the empty window divides
by zero. -/
theorem calculateAnomalyScore_divByZero_iff_witness :
    (∃ v, calculateAnomalyScore 300 0 [0, 300] ([0, 300] : List Int).length = .ok v) ∧
    calculateAnomalyScore 300 0 [] ([] : List Int).length = .error .divByZero :=
  ⟨((calculateAnomalyScore_divByZero_iff 300 0 [0, 300]).2 (by decide)).2.2.2,
    (calculateAnomalyScore_divByZero_iff 300 0 []).1.2 rfl⟩

/-- C17 (amended). For every baseline and every non-empty `recentSamples` the variance term of
`calculateAnomalyScore`, `0.3 * (mean of (sample - baseline)^2) / 150^2`, is at least `0`, and
so is the `double` value the code adds for it; hence the returned score is never below the
`float` value of its level term, the variable `score` after the level step, for every level;
and in exact arithmetic, when `currentLevel - baseline` does not overflow, the score is never
below `0.4 * (currentLevel - baseline) / 150`. -/
theorem calculateAnomalyScore_ge_level (currentLevel baseline : Int)
    (recentSamples : List Int) (hne : recentSamples ≠ []) :
    0 ≤ 3 / 10 * meanSquaredDeviation recentSamples baseline / 150 ^ 2 ∧
    0 ≤ f64 (f32 (f32 (varianceSum32 recentSamples baseline / f32 recentSamples.length) / 22500)
      * f64 (3 / 10)) ∧
    (∃ v, calculateAnomalyScore currentLevel baseline recentSamples recentSamples.length
        = .ok v ∧ levelScore32 currentLevel baseline ≤ v) ∧
    (INT_MIN ≤ currentLevel - baseline → currentLevel - baseline ≤ INT_MAX →
      ∃ w, calculateAnomalyScoreExact currentLevel baseline recentSamples recentSamples.length
        = .ok w ∧ 4 / 10 * ((currentLevel - baseline : Int) : ℚ) / 150 ≤ w) := by
  refine ⟨?_, varianceTerm32_nonneg _ _, ?_, ?_⟩
  · exact div_nonneg (mul_nonneg (by norm_num) (meanSquaredDeviation_nonneg _ _))
      (by norm_num)
  · refine ⟨_, calculateAnomalyScore_eq _ _ _ hne, ?_⟩
    have h1 := levelScore32_le_varianceScore32 currentLevel baseline recentSamples
    have h2 := varianceScore32_le_bonus currentLevel baseline recentSamples
    split_ifs
    · exact le_trans h1 h2
    · exact h1
  · intro hlo hhi
    refine ⟨_, calculateAnomalyScoreExact_wrap _ _ _ hne, ?_⟩
    rw [wrapInt_eq _ hlo hhi]
    have hs : (0 : ℚ) ≤ ∑ i in Finset.range recentSamples.length,
        ((wrapInt (recentSamples.getD i 0 - baseline) : Int) : ℚ) ^ 2 :=
      Finset.sum_nonneg (fun _ _ => sq_nonneg _)
    have hv : (0 : ℚ) ≤ 3 / 10 * ((∑ i in Finset.range recentSamples.length,
        ((wrapInt (recentSamples.getD i 0 - baseline) : Int) : ℚ) ^ 2)
        / (recentSamples.length : ℚ)) / 150 ^ 2 :=
      div_nonneg (mul_nonneg (by norm_num) (div_nonneg hs (Nat.cast_nonneg _))) (by norm_num)
    have hb : (0 : ℚ) ≤ (if detectSoundPattern recentSamples recentSamples.length baseline
        = .ok true then 3 / 10 else 0) := by
      split_ifs <;> norm_num
    linarith

/-- C17, witness: level `300`, baseline `100` and the window `[100, 400, 100, 400, 100]`. -/
theorem calculateAnomalyScore_ge_level_witness :
    (∃ v, calculateAnomalyScore 300 100 [100, 400, 100, 400, 100]
        ([100, 400, 100, 400, 100] : List Int).length = .ok v ∧ levelScore32 300 100 ≤ v) ∧
    (∃ w, calculateAnomalyScoreExact 300 100 [100, 400, 100, 400, 100]
        ([100, 400, 100, 400, 100] : List Int).length = .ok w ∧
      4 / 10 * ((300 - 100 : Int) : ℚ) / 150 ≤ w) :=
  ⟨(calculateAnomalyScore_ge_level 300 100 [100, 400, 100, 400, 100] (by decide)).2.2.1,
    (calculateAnomalyScore_ge_level 300 100 [100, 400, 100, 400, 100] (by decide)).2.2.2
      (by decide) (by decide)⟩

/-- C17, counterexample to the claim as stated: for `currentLevel = 1`, `baseline = 0` and the
window `[0]` the variance term and the bonus are `0` and the code returns the `float`
`5726623 / 2^31 = 0.00266666663...`, the rounded level term, which is below the level term
`0.4 * (1 - 0) / 150 = 0.00266666666...`. -/
theorem calculateAnomalyScore_below_level_counterexample :
    calculateAnomalyScore 1 0 [0] ([0] : List Int).length = .ok (5726623 / 2147483648) ∧
    (5726623 : ℚ) / 2147483648 < 4 / 10 * ((1 - 0 : Int) : ℚ) / 150 := by
  have hp : peakCount [0] (wrapInt (0 + 75)) = 0 := by decide
  have hw0 : wrapInt 0 = 0 := by decide
  have z64 : f64 0 = 0 := roundTo_zero 53
  have z32 : f32 0 = 0 := roundTo_zero 24
  have hv : varianceSum32 [0] 0 = 0 := by
    simp [varianceSum32, hw0, z32]
  have hk32 : f32 (5726623 / 2147483648) = 5726623 / 2147483648 := by
    rw [← f32_level_one_score]
    exact f32_f32 _
  have hk64 : f64 (5726623 / 2147483648) = 5726623 / 2147483648 := by
    rw [← f32_level_one_score]
    exact f64_f32 _
  have hs : varianceScore32 1 0 [0] = 5726623 / 2147483648 := by
    unfold varianceScore32
    rw [levelScore32_one, hv]
    norm_num [z32, z64, hk32, hk64]
  refine ⟨?_, by norm_num⟩
  rw [calculateAnomalyScore_eq _ _ _ (by simp), hp, hs]
  simp

/-- C18 (amended). Gap length never affects `analyzeHelpSyllables`: for every window and every
baseline whose threshold `baseline + 100` does not overflow, inserting one additional sample
that is at most `baseline + 100` immediately next to an existing sample that is at most
`baseline + 100`, or at either end of the window, leaves the result unchanged; so lengthening
a gap by any number of such samples leaves it unchanged too. -/
theorem analyzeHelpSyllables_gap_invariant (pre post : List Int) (x baseline : Int)
    (hlo : INT_MIN ≤ baseline + 100) (hhi : baseline + 100 ≤ INT_MAX)
    (hx : x ≤ baseline + 100) :
    ((pre = [] ∨ post = [] ∨ (∃ y, pre.getLast? = some y ∧ y ≤ baseline + 100) ∨
        (∃ y, post.head? = some y ∧ y ≤ baseline + 100)) →
      analyzeHelpSyllables (pre ++ x :: post) (pre ++ x :: post).length baseline
        = analyzeHelpSyllables (pre ++ post) (pre ++ post).length baseline) ∧
    (∀ gap : List Int, (∀ g ∈ gap, g ≤ baseline + 100) →
      analyzeHelpSyllables (pre ++ x :: (gap ++ post)) (pre ++ x :: (gap ++ post)).length
          baseline
        = analyzeHelpSyllables (pre ++ x :: post) (pre ++ x :: post).length baseline) := by
  constructor
  · intro hadj
    rw [analyzeHelpSyllables_eq, analyzeHelpSyllables_eq, wrapInt_eq _ hlo hhi,
      runCount_insert_gap pre post x _ hx hadj]
  · intro gap hgap
    rw [analyzeHelpSyllables_eq, analyzeHelpSyllables_eq, wrapInt_eq _ hlo hhi,
      runCount_lengthen_gap pre post gap x _ hx hgap]

/-- C18, witness: a second gap sample `50` inserted after the gap sample `0` in the window
`[0, 200, 0, 200, 0]`, baseline `0`, and the gap `[0, 50]` lengthened by `[20, 30, 40]`. -/
theorem analyzeHelpSyllables_gap_invariant_witness :
    analyzeHelpSyllables ([0, 200, 0] ++ 50 :: [200, 0])
        (([0, 200, 0] : List Int) ++ 50 :: [200, 0]).length 0
      = analyzeHelpSyllables ([0, 200, 0] ++ [200, 0])
          (([0, 200, 0] : List Int) ++ [200, 0]).length 0 ∧
    analyzeHelpSyllables ([0, 200, 0] ++ 50 :: ([20, 30, 40] ++ [200, 0]))
        (([0, 200, 0] : List Int) ++ 50 :: ([20, 30, 40] ++ [200, 0])).length 0
      = analyzeHelpSyllables ([0, 200, 0] ++ 50 :: [200, 0])
          (([0, 200, 0] : List Int) ++ 50 :: [200, 0]).length 0 :=
  ⟨(analyzeHelpSyllables_gap_invariant [0, 200, 0] [200, 0] 50 0 (by decide) (by decide)
      (by decide)).1 (Or.inr (Or.inr (Or.inl ⟨0, rfl, by decide⟩))),
    (analyzeHelpSyllables_gap_invariant [0, 200, 0] [200, 0] 50 0 (by decide) (by decide)
      (by decide)).2 [20, 30, 40] (by decide)⟩

/-- C18, counterexample to the claim as stated: with baseline `INT_MAX` the threshold
`baseline + 100` wraps around to `-2147483549`.  The sample `0` is at most `baseline + 100`,
and appending it to the window `[0, INT_MIN]` changes the result from `false` to `true`: the
code sees it above the wrapped threshold, as a second syllable. -/
theorem analyzeHelpSyllables_gap_overflow_counterexample :
    (0 : Int) ≤ 2147483647 + 100 ∧
    analyzeHelpSyllables ([0, -2147483648] ++ [])
        (([0, -2147483648] : List Int) ++ []).length 2147483647 = .ok false ∧
    analyzeHelpSyllables ([0, -2147483648] ++ 0 :: [])
        (([0, -2147483648] : List Int) ++ 0 :: []).length 2147483647 = .ok true := by
  refine ⟨by decide, ?_, ?_⟩
  · rw [analyzeHelpSyllables_eq]
    exact congrArg Except.ok (decide_eq_false (by decide))
  · rw [analyzeHelpSyllables_eq]
    exact congrArg Except.ok (decide_eq_true (by decide))

/-- C19. Every voice pattern is also a spike pattern: for every window and baseline whose
thresholds `baseline + 75` and `baseline + 100` do not overflow, when `detectVoicePattern`
returns `true` so does `detectSoundPattern`; hence a window with a positive
`calculateVoiceConfidence` takes the branch of `calculateAnomalyScore` that adds the `0.3`
pattern bonus, for every current level. -/
theorem voice_pattern_is_spike_pattern (samples : List Int) (baseline : Int)
    (hlo : INT_MIN ≤ baseline + 75) (hhi : baseline + 100 ≤ INT_MAX) :
    (detectVoicePattern samples samples.length baseline = .ok true →
      detectSoundPattern samples samples.length baseline = .ok true) ∧
    (∀ v, calculateVoiceConfidence samples samples.length baseline = .ok v → 0 < v →
      detectSoundPattern samples samples.length baseline = .ok true ∧
      ∀ currentLevel, calculateAnomalyScore currentLevel baseline samples samples.length
        = .ok (f32 (f64 (varianceScore32 currentLevel baseline samples + f64 (3 / 10))))) := by
  have h75 : wrapInt (baseline + 75) = baseline + 75 :=
    wrapInt_eq _ hlo (by unfold INT_MAX at hhi ⊢; omega)
  have h100 : wrapInt (baseline + 100) = baseline + 100 :=
    wrapInt_eq _ (by unfold INT_MIN at hlo ⊢; omega) hhi
  have hmono : peakCount samples (wrapInt (baseline + 100))
      ≤ peakCount samples (wrapInt (baseline + 75)) := by
    rw [h75, h100]
    exact peakCount_antitone samples (by omega)
  have hspike : 2 ≤ peakCount samples (wrapInt (baseline + 100)) →
      detectSoundPattern samples samples.length baseline = .ok true := by
    intro h
    rw [detectSoundPattern_eq]
    exact congrArg Except.ok (decide_eq_true (le_trans h hmono))
  constructor
  · intro hv
    rw [detectVoicePattern_eq] at hv
    exact hspike (of_decide_eq_true (Except.ok.inj hv)).2.2.2
  · intro v hv hpos
    rw [calculateVoiceConfidence_eq] at hv
    have hv' := Except.ok.inj hv
    by_cases hg : (5 ≤ samples.length ∧
        activeRatio samples (wrapInt (baseline + 100)) > f64 (3 / 10) ∧
        activeRatio samples (wrapInt (baseline + 100)) < f64 (8 / 10) ∧
        2 ≤ peakCount samples (wrapInt (baseline + 100)))
    · refine ⟨hspike hg.2.2.2, fun currentLevel => ?_⟩
      have hne : samples ≠ [] := by
        intro h0
        rw [h0] at hg
        exact absurd hg.1 (by decide)
      rw [calculateAnomalyScore_eq _ _ _ hne, if_pos (le_trans hg.2.2.2 hmono)]
    · rw [if_neg hg] at hv'
      rw [← hv'] at hpos
      exact absurd hpos (lt_irrefl _)

/-- C19, witness: the window `[0, 200, 0, 200, 0]` with baseline `0` is a voice pattern. -/
theorem voice_pattern_is_spike_pattern_witness :
    detectVoicePattern [0, 200, 0, 200, 0] ([0, 200, 0, 200, 0] : List Int).length 0
        = .ok true ∧
      detectSoundPattern [0, 200, 0, 200, 0] ([0, 200, 0, 200, 0] : List Int).length 0
        = .ok true := by
  have ha : activeCount [0, 200, 0, 200, 0] (0 + 100) = 2 := by decide
  have hp : peakCount [0, 200, 0, 200, 0] (0 + 100) = 2 := by decide
  have hv : detectVoicePattern [0, 200, 0, 200, 0] ([0, 200, 0, 200, 0] : List Int).length 0
      = .ok true := by
    rw [detectVoicePattern_bounded _ 0 (by decide) (by decide) (by decide), ha, hp]
    norm_num
  exact ⟨hv, (voice_pattern_is_spike_pattern [0, 200, 0, 200, 0] 0 (by decide) (by decide)).1
    hv⟩

/-- C20. Shift invariance: for every window, baseline and offset `c`, the thresholds
`baseline + 75`, `baseline + 100`, `baseline + c + 75` and `baseline + c + 100` not
overflowing, adding `c` to every sample and to the baseline leaves the results of
`detectSoundPattern`, `detectVoicePattern`, `analyzeHelpSyllables` and
`calculateVoiceConfidence` unchanged. -/
theorem shift_invariance (samples : List Int) (baseline c : Int)
    (hlo : INT_MIN ≤ baseline + 75) (hhi : baseline + 100 ≤ INT_MAX)
    (hlo' : INT_MIN ≤ baseline + c + 75) (hhi' : baseline + c + 100 ≤ INT_MAX) :
    detectSoundPattern (samples.map (fun s => s + c)) (samples.map (fun s => s + c)).length
        (baseline + c) = detectSoundPattern samples samples.length baseline ∧
    detectVoicePattern (samples.map (fun s => s + c)) (samples.map (fun s => s + c)).length
        (baseline + c) = detectVoicePattern samples samples.length baseline ∧
    analyzeHelpSyllables (samples.map (fun s => s + c)) (samples.map (fun s => s + c)).length
        (baseline + c) = analyzeHelpSyllables samples samples.length baseline ∧
    calculateVoiceConfidence (samples.map (fun s => s + c))
        (samples.map (fun s => s + c)).length (baseline + c)
      = calculateVoiceConfidence samples samples.length baseline := by
  have h75 : wrapInt (baseline + 75) = baseline + 75 :=
    wrapInt_eq _ hlo (by unfold INT_MAX at hhi ⊢; omega)
  have h100 : wrapInt (baseline + 100) = baseline + 100 :=
    wrapInt_eq _ (by unfold INT_MIN at hlo ⊢; omega) hhi
  have h75' : wrapInt (baseline + c + 75) = baseline + 75 + c := by
    rw [wrapInt_eq _ hlo' (by unfold INT_MAX at hhi' ⊢; omega)]
    ring
  have h100' : wrapInt (baseline + c + 100) = baseline + 100 + c := by
    rw [wrapInt_eq _ (by unfold INT_MIN at hlo' ⊢; omega) hhi']
    ring
  refine ⟨?_, ?_, ?_, ?_⟩
  · rw [detectSoundPattern_eq, detectSoundPattern_eq, h75, h75', peakCount_shift]
  · rw [detectVoicePattern_eq, detectVoicePattern_eq, h100, h100', peakCount_shift,
      activeRatio_shift, List.length_map]
  · rw [analyzeHelpSyllables_eq, analyzeHelpSyllables_eq, h100, h100', runCount_shift]
  · rw [calculateVoiceConfidence_eq, calculateVoiceConfidence_eq, h100, h100', peakCount_shift,
      activeRatio_shift, runCount_shift, List.length_map]

/-- C20, witness: the window `[0, 200, 0, 200, 0]` with baseline `0`, shifted by `1000`. -/
theorem shift_invariance_witness :
    detectSoundPattern (([0, 200, 0, 200, 0] : List Int).map (fun s => s + 1000))
        (([0, 200, 0, 200, 0] : List Int).map (fun s => s + 1000)).length (0 + 1000)
      = detectSoundPattern [0, 200, 0, 200, 0] ([0, 200, 0, 200, 0] : List Int).length 0 ∧
    detectVoicePattern (([0, 200, 0, 200, 0] : List Int).map (fun s => s + 1000))
        (([0, 200, 0, 200, 0] : List Int).map (fun s => s + 1000)).length (0 + 1000)
      = detectVoicePattern [0, 200, 0, 200, 0] ([0, 200, 0, 200, 0] : List Int).length 0 ∧
    analyzeHelpSyllables (([0, 200, 0, 200, 0] : List Int).map (fun s => s + 1000))
        (([0, 200, 0, 200, 0] : List Int).map (fun s => s + 1000)).length (0 + 1000)
      = analyzeHelpSyllables [0, 200, 0, 200, 0] ([0, 200, 0, 200, 0] : List Int).length 0 ∧
    calculateVoiceConfidence (([0, 200, 0, 200, 0] : List Int).map (fun s => s + 1000))
        (([0, 200, 0, 200, 0] : List Int).map (fun s => s + 1000)).length (0 + 1000)
      = calculateVoiceConfidence [0, 200, 0, 200, 0]
          ([0, 200, 0, 200, 0] : List Int).length 0 :=
  shift_invariance [0, 200, 0, 200, 0] 0 1000 (by decide) (by decide) (by decide) (by decide)

/-! ## Further properties of the code -/

/-- The voice gate in exact terms, away from the lower bound.  For every window of at most
`2^22` samples and every baseline whose threshold `baseline + 100` does not overflow:
`detectVoicePattern` returns `true` when the window has at least five samples, the exact
fraction of samples strictly above the threshold is strictly between `0.3` and `0.8`, and at
least two interior strict local maxima are above the threshold; it returns `false` when the
window has fewer than five samples, or the fraction is below `0.3`, or it is `0.8` or more, or
there are fewer than two such maxima. -/
theorem detectVoicePattern_gate_exact (samples : List Int) (baseline : Int)
    (hN : samples.length ≤ 4194304) (hlo : INT_MIN ≤ baseline + 100)
    (hhi : baseline + 100 ≤ INT_MAX) :
    ((5 ≤ samples.length ∧
        (3 : ℚ) / 10 < (activeCount samples (baseline + 100) : ℚ) / (samples.length : ℚ) ∧
        (activeCount samples (baseline + 100) : ℚ) / (samples.length : ℚ) < 8 / 10 ∧
        2 ≤ peakCount samples (baseline + 100)) →
      detectVoicePattern samples samples.length baseline = .ok true) ∧
    ((samples.length < 5 ∨
        (activeCount samples (baseline + 100) : ℚ) / (samples.length : ℚ) < 3 / 10 ∨
        (8 : ℚ) / 10 ≤ (activeCount samples (baseline + 100) : ℚ) / (samples.length : ℚ) ∨
        peakCount samples (baseline + 100) < 2) →
      detectVoicePattern samples samples.length baseline = .ok false) := by
  rw [detectVoicePattern_bounded samples baseline hN hlo hhi]
  constructor
  · rintro ⟨h1, h2, h3, h4⟩
    exact congrArg Except.ok (decide_eq_true ⟨h1, h2.le, h3, h4⟩)
  · intro h
    refine congrArg Except.ok (decide_eq_false ?_)
    rintro ⟨h1, h2, h3, h4⟩
    rcases h with h | h | h | h
    · omega
    · exact absurd h2 (not_le.2 h)
    · exact absurd h3 (not_lt.2 h)
    · omega

/-- Witness of `detectVoicePattern_gate_exact`: a window with eight of ten samples active is
rejected, the upper bound being excluded. -/
theorem detectVoicePattern_gate_exact_witness :
    detectVoicePattern [200, 300, 200, 300, 200, 300, 200, 300, 0, 0]
      ([200, 300, 200, 300, 200, 300, 200, 300, 0, 0] : List Int).length 0 = .ok false := by
  refine (detectVoicePattern_gate_exact _ 0 (by decide) (by decide) (by decide)).2 ?_
  have ha : activeCount [200, 300, 200, 300, 200, 300, 200, 300, 0, 0] (0 + 100) = 8 := by
    decide
  rw [ha]
  right; right; left
  norm_num

/-- The `float` result of `calculateAnomalyScore` against the exact value: for a non-empty
window of fewer than `2^24` samples without `int` overflow in the subtractions, the function
returns a value within `((1 + 2^-24)^(N + 11) - 1) * (|level term| + variance term + bonus)` of
`level term + variance term + bonus`. -/
theorem calculateAnomalyScore_near (currentLevel baseline : Int) (recentSamples : List Int)
    (hne : recentSamples ≠ []) (hN : recentSamples.length < 16777216)
    (hc : INT_MIN ≤ currentLevel - baseline ∧ currentLevel - baseline ≤ INT_MAX)
    (hs : ∀ s ∈ recentSamples, INT_MIN ≤ s - baseline ∧ s - baseline ≤ INT_MAX) :
    ∃ v : ℚ, calculateAnomalyScore currentLevel baseline recentSamples recentSamples.length
        = .ok v ∧
      |v - (4 / 10 * ((currentLevel - baseline : Int) : ℚ) / 150
          + 3 / 10 * meanSquaredDeviation recentSamples baseline / 150 ^ 2
          + (if detectSoundPattern recentSamples recentSamples.length baseline = .ok true
              then 3 / 10 else 0))|
        ≤ ((1 + unitRoundoff) ^ (recentSamples.length + 11) - 1)
          * (|4 / 10 * ((currentLevel - baseline : Int) : ℚ) / 150|
            + 3 / 10 * meanSquaredDeviation recentSamples baseline / 150 ^ 2
            + (if detectSoundPattern recentSamples recentSamples.length baseline = .ok true
                then 3 / 10 else 0)) := by
  have hvs := varianceScore32_err currentLevel baseline recentSamples hne hN hc hs
  rw [calculateAnomalyScore_eq _ _ _ hne, detectSoundPattern_eq]
  refine ⟨_, rfl, ?_⟩
  by_cases hp : 2 ≤ peakCount recentSamples (wrapInt (baseline + 75))
  · rw [if_pos hp, decide_eq_true hp, if_pos rfl]
    have hb := errWithin_mono (errWithin_const (3 / 10))
      (by omega : 1 ≤ recentSamples.length + 9)
    have h := errWithin_f32 (errWithin_f64 (errWithin_add hvs hb))
    rw [abs_of_pos (by norm_num : (0 : ℚ) < 3 / 10)] at h
    exact h.1
  · rw [if_neg hp, decide_eq_false hp, if_neg (by decide)]
    have h := errWithin_mono hvs (by omega : recentSamples.length + 9 ≤ recentSamples.length + 11)
    rw [add_zero, add_zero]
    exact h.1

/-- Witness of `calculateAnomalyScore_near`: level `300` over baseline `100` with the window
`[100, 400, 100, 400, 100]`. -/
theorem calculateAnomalyScore_near_witness :
    ∃ v : ℚ, calculateAnomalyScore 300 100 [100, 400, 100, 400, 100]
        ([100, 400, 100, 400, 100] : List Int).length = .ok v ∧
      |v - (4 / 10 * ((300 - 100 : Int) : ℚ) / 150
          + 3 / 10 * meanSquaredDeviation [100, 400, 100, 400, 100] 100 / 150 ^ 2
          + (if detectSoundPattern [100, 400, 100, 400, 100]
                ([100, 400, 100, 400, 100] : List Int).length 100 = .ok true
              then 3 / 10 else 0))|
        ≤ ((1 + unitRoundoff) ^ (([100, 400, 100, 400, 100] : List Int).length + 11) - 1)
          * (|4 / 10 * ((300 - 100 : Int) : ℚ) / 150|
            + 3 / 10 * meanSquaredDeviation [100, 400, 100, 400, 100] 100 / 150 ^ 2
            + (if detectSoundPattern [100, 400, 100, 400, 100]
                  ([100, 400, 100, 400, 100] : List Int).length 100 = .ok true
                then 3 / 10 else 0)) :=
  calculateAnomalyScore_near 300 100 [100, 400, 100, 400, 100] (by simp) (by decide)
    (by decide) (by decide)

end SoundAnalysis
